import Mathlib

/-!
Verification of the rizznet proxy pipeline (Go) against its specification.

This file shallowly embeds the parts of the source needed by the claims:

* `internal/xray/parser` — `Parse`, `ToURI`, `CalculateHash` and helpers
  (`DecodeBase64`, `ParseQueryParam`, the per-protocol parsers).
* `internal/engine` — `Bucket.Offer`, `HistoryEngine.UpdateHistory`,
  `HistoryEngine.GetPredictiveScore`, and the `Annealer.Run` loop.
* `internal/environment` — `Detect` and the test command's fallback.
* `internal/tester` — `SpeedCheck`.

Modelling conventions, used throughout:

* Go `float64` arithmetic is modelled exactly over `ℚ` (scores, speeds,
  data budgets); Go `int`/`int64` as `ℤ` or `ℕ`.
* Go strings are byte strings.  We model them as Lean `String`s and, where
  byte-level work is required (base64), restrict to strings whose
  characters are single bytes (`< 256`); `String.toLower`,
  `strings.Contains` etc. are re-implemented over `String.data` so that
  every definition evaluates inside the kernel.
* `net/url` parsing/encoding is modelled at the structured level: a URI in
  `scheme://[userinfo@]host:port?query#fragment` form is represented by
  its components (`URLParts`), with the query as an association list and
  `Get` returning the first value for a key, exactly like `url.Values`.
  Percent-encoding is the identity on the class of strings considered.
  `url.Values.Encode` sorts query keys; since every key the serializer
  emits is distinct, any sort produces the same list and we use
  `List.insertionSort`, which evaluates in the kernel.
* The VMess legacy (`vmess://base64-of-JSON`) form is modelled by the
  decoded `vmessJSON` structure itself; `encoding/json` round-trips that
  struct field-for-field (its `port` field, declared `interface{}`, is a
  JSON number or string and is modelled by a sum).
* `CalculateHash` SHA-256-hashes a `|`-joined signature string.  SHA-256
  is a fixed injective-in-intent post-composition, so we model the hash by
  the signature string itself: equal signatures give equal hashes, and
  distinct signatures give distinct hashes absent SHA-256 collisions.
-/

/-! ## Byte-level string utilities (kernel-evaluable replacements) -/

/-- `strings.ToLower` (ASCII fragment; all strings in play are ASCII). -/
def lowerStr (s : String) : String := ⟨s.data.map Char.toLower⟩

/-- `strings.Contains(s, c)` for a single-character needle. -/
def goContainsChar (s : String) (c : Char) : Bool := s.data.contains c

/-- Substring test over character lists, `strings.Contains(s, pat)`. -/
def containsSubAux (pat : List Char) : List Char → Bool
  | [] => pat.isEmpty
  | c :: rest => pat.isPrefixOf (c :: rest) || containsSubAux pat rest

/-- `strings.Contains(s, pat)` for a general needle. -/
def containsSub (s pat : String) : Bool := containsSubAux pat.data s.data

/-- `strings.Join(parts, "|")` — the fingerprint signature join. -/
def sigJoin : List String → String
  | [] => ""
  | [x] => x
  | x :: xs => x ++ "|" ++ sigJoin xs

/-- `url.Values.Get`: first value bound to a key, `""` when absent. -/
def qget (l : List (String × String)) (k : String) : String :=
  match l.find? (fun kv => kv.1 == k) with
  | some kv => kv.2
  | none => ""

/-- `url.Values.Encode` sorts query keys.  All emitted keys are distinct,
so the particular sorting algorithm is irrelevant; we use insertion sort,
which evaluates in the kernel. -/
def sortQuery (l : List (String × String)) : List (String × String) :=
  l.insertionSort (fun a b => a.1 ≤ b.1)

/-- Split a character list at the first occurrence of `c`. -/
def List.splitOnFirst (c : Char) : List Char → Option (List Char × List Char)
  | [] => none
  | x :: xs =>
    if x = c then some ([], xs)
    else match xs.splitOnFirst c with
      | some (a, b) => some (x :: a, b)
      | none => none

/-- `strings.SplitN(s, ":", 2)`: the part before the first colon and the
part after it, or `none` when the string has no colon. -/
def splitFirstColon (s : String) : Option (String × String) :=
  match s.data.splitOnFirst ':' with
  | some (a, b) => some (⟨a⟩, ⟨b⟩)
  | none => none

/-- Leftmost match of the Go regular expression `pat([^;]+)` inside a
plugin option string: find the first occurrence of the literal `pat` that
is followed by at least one non-`;` character and return the (greedy)
capture.  Models `regexp.MustCompile(...).FindStringSubmatch`. -/
def extractCaptureAux (pat : List Char) : List Char → Option (List Char)
  | [] => none
  | c :: rest =>
    if pat.isPrefixOf (c :: rest) then
      let cap := ((c :: rest).drop pat.length).takeWhile (fun ch => ch ≠ ';')
      if cap.isEmpty then extractCaptureAux pat rest else some cap
    else extractCaptureAux pat rest

/-- String-level wrapper for `extractCaptureAux`; `""` when no match,
matching the source's `if len(match) > 1` guard leaving the field unset. -/
def extractCapture (pat s : String) : String :=
  match extractCaptureAux pat.data s.data with
  | some cap => ⟨cap⟩
  | none => ""

/-- `strconv.Atoi` (full-string decimal with optional sign), composed with
the source's `_`-discarding idiom: invalid input yields `0`. -/
def goAtoiDigits : List Char → Option ℕ
  | [] => none
  | [c] => if c.isDigit then some (c.toNat - 48) else none
  | c :: rest =>
    if c.isDigit then
      match goAtoiDigits rest with
      | some n => some ((c.toNat - 48) * 10 ^ rest.length + n)
      | none => none
    else none

/-- `n, _ := strconv.Atoi(s)`: parse or yield `0`. -/
def goAtoi (s : String) : ℤ :=
  match s.data with
  | '-' :: rest => match goAtoiDigits rest with
    | some n => -(n : ℤ)
    | none => 0
  | '+' :: rest => match goAtoiDigits rest with
    | some n => (n : ℤ)
    | none => 0
  | l => match goAtoiDigits l with
    | some n => (n : ℤ)
    | none => 0

/-- `strings.TrimSpace` (ASCII whitespace). -/
def trimSpaceStr (s : String) : String :=
  ⟨(s.data.dropWhile (fun c => c.isWhitespace)).reverse.dropWhile
      (fun c => c.isWhitespace) |>.reverse⟩

/-- A Go byte string: every character is a single byte. -/
def ByteStr (s : String) : Prop := ∀ c ∈ s.data, c.toNat < 256

instance : DecidablePred ByteStr := fun s =>
  inferInstanceAs (Decidable (∀ c ∈ s.data, c.toNat < 256))

/-! ## Base64 (`encoding/base64` as used by the parser and serializer)

The source decodes with `StdEncoding` first and falls back to
`URLEncoding` after fixing missing padding (`DecodeBase64`, parser
helpers), and encodes Shadowsocks userinfo with
`URLEncoding.WithPadding(NoPadding)`.  Bytes are `ℕ < 256`; a Go byte
string is a Lean string of single-byte characters (`ByteStr`). -/

/-- `[]byte(s)` for a byte string. -/
def strBytes (s : String) : List ℕ := s.data.map Char.toNat

/-- `string(b)` for a byte slice. -/
def bytesToStr (bs : List ℕ) : String := ⟨bs.map Char.ofNat⟩

/-- The standard base64 alphabet. -/
def b64StdAlphabet : List Char :=
  "ABCDEFGHIJKLMNOPQRSTUVWXYZabcdefghijklmnopqrstuvwxyz0123456789+/".data

/-- The URL-safe base64 alphabet. -/
def b64UrlAlphabet : List Char :=
  "ABCDEFGHIJKLMNOPQRSTUVWXYZabcdefghijklmnopqrstuvwxyz0123456789-_".data

/-- Character for a six-bit group, URL-safe alphabet. -/
def b64UrlChar (n : ℕ) : Char := b64UrlAlphabet.getD n 'A'

/-- Index of a character in an alphabet (inverse of the encoding table). -/
def sexOf (alpha : List Char) (c : Char) : Option ℕ :=
  alpha.findIdx? (fun a => a == c)

/-- Sextet stream of a byte list (the bit-shuffling of `base64.Encode`,
written with `/` and `%`). -/
def b64EncodeSextets : List ℕ → List ℕ
  | [] => []
  | [b1] => [b1 / 4, b1 % 4 * 16]
  | [b1, b2] => [b1 / 4, b1 % 4 * 16 + b2 / 16, b2 % 16 * 4]
  | b1 :: b2 :: b3 :: rest =>
    (b1 / 4) :: (b1 % 4 * 16 + b2 / 16) :: (b2 % 16 * 4 + b3 / 64) ::
      (b3 % 64) :: b64EncodeSextets rest

/-- `base64.URLEncoding.WithPadding(base64.NoPadding).EncodeToString`. -/
def b64UrlNoPad (s : String) : String :=
  ⟨(b64EncodeSextets (strBytes s)).map b64UrlChar⟩

/-- The source's padding fix: append `=` until the length is a multiple
of four. -/
def padFix (l : List Char) : List Char :=
  if l.length % 4 = 0 then l else l ++ List.replicate (4 - l.length % 4) '='

/-- `base64.Encoding.DecodeString` over four-character quanta: strict
about characters and padding placement (Go's default decoder). -/
def b64DecodeGroups (alpha : List Char) : List Char → Option (List ℕ)
  | [] => some []
  | c1 :: c2 :: c3 :: c4 :: rest =>
    match sexOf alpha c1, sexOf alpha c2 with
    | some s1, some s2 =>
      if c3 = '=' then
        if c4 = '=' ∧ rest = [] then some [s1 * 4 + s2 / 16] else none
      else
        match sexOf alpha c3 with
        | some s3 =>
          if c4 = '=' then
            if rest = [] then some [s1 * 4 + s2 / 16, s2 % 16 * 16 + s3 / 4]
            else none
          else
            match sexOf alpha c4, b64DecodeGroups alpha rest with
            | some s4, some bsr =>
              some ((s1 * 4 + s2 / 16) :: (s2 % 16 * 16 + s3 / 4) ::
                (s3 % 4 * 64 + s4) :: bsr)
            | _, _ => none
        | none => none
    | _, _ => none
  | _ => none

/-- `DecodeBase64` from the parser helpers: empty string decodes to
itself; otherwise fix padding, try the standard alphabet, then the
URL-safe one. -/
def decodeBase64 (s : String) : Option String :=
  if s = "" then some ""
  else
    match b64DecodeGroups b64StdAlphabet (padFix s.data) with
    | some bs => some (bytesToStr bs)
    | none =>
      match b64DecodeGroups b64UrlAlphabet (padFix s.data) with
      | some bs => some (bytesToStr bs)
      | none => none

/-! ## Data model (`internal/xray/parser/model.go`)

`Profile` mirrors the source structure.  `RawURI` (the original link,
display-only and never hashed or serialized) is omitted.  Go `int` fields
are `ℤ`; `Reserved []uint8` is a list of bytes. -/

structure Profile where
  protocol : String := ""
  remarks : String := ""
  address : String := ""
  port : ℤ := 0
  username : String := ""
  password : String := ""
  method : String := ""
  secretKey : String := ""
  localAddress : String := ""
  publicKey : String := ""
  preSharedKey : String := ""
  mtu : ℤ := 0
  reserved : List ℕ := []
  obfs : String := ""
  obfsPassword : String := ""
  portHopping : String := ""
  network : String := ""
  headerType : String := ""
  host : String := ""
  path : String := ""
  seed : String := ""
  quicSecurity : String := ""
  quicKey : String := ""
  mode : String := ""
  serviceName : String := ""
  authority : String := ""
  security : String := ""
  insecure : Bool := false
  sni : String := ""
  fingerprint : String := ""
  alpn : List String := []
  pbk : String := ""
  sid : String := ""
  spiderX : String := ""
  flow : String := ""
deriving Repr, DecidableEq

/-- `url.Userinfo`: a username with an optional password. -/
structure Userinfo where
  username : String
  hasPassword : Bool := false
  password : String := ""
deriving Repr, DecidableEq

/-- The result of `url.Parse` on a `scheme://[user@]host:port?query#frag`
URI: `host` is `u.Hostname()`, `port` the `strconv.Atoi` reading of
`u.Port()` (0 when absent or invalid, matching the `_`-discarding call
sites), `query` the ordered key/value pairs of the raw query. -/
structure URLParts where
  scheme : String
  user : Option Userinfo := none
  host : String := ""
  port : ℤ := 0
  query : List (String × String) := []
  fragment : String := ""
deriving Repr, DecidableEq

/-- A JSON scalar as decoded into an `interface{}` field (`v.Port`). -/
inductive JsonVal where
  | num (n : ℤ)
  | str (s : String)
  | null
deriving Repr, DecidableEq

/-- The `vmessJSON` wire structure (legacy `vmess://base64-of-JSON`).
`typ` is the Go field `Type` (a reserved word here). -/
structure VmessJSON where
  ps : String := ""
  add : String := ""
  port : JsonVal := .null
  id : String := ""
  scy : String := ""
  net : String := ""
  typ : String := ""
  host : String := ""
  path : String := ""
  tls : String := ""
  sni : String := ""
  alpn : String := ""
  fp : String := ""
deriving Repr, DecidableEq

/-- A raw proxy link, at the structured level: either a generic URI or the
legacy base64-of-JSON VMess form (whose payload contains neither `?` nor
`&`, so `parseVMess` always routes it to the legacy branch). -/
inductive URI where
  | generic (parts : URLParts)
  | vmessLegacy (v : VmessJSON)
deriving Repr, DecidableEq

/-- `u.User.String()`. -/
def userString : Option Userinfo → String
  | none => ""
  | some u => if u.hasPassword then u.username ++ ":" ++ u.password else u.username

/-- `p.Port, _ = strconv.Atoi(fmt.Sprintf("%v", v.Port))`: a JSON number
prints as its decimal form, a string as itself, `nil` as `<nil>` (which
`Atoi` rejects, leaving 0). -/
def jsonPortToInt : JsonVal → ℤ
  | .num n => n
  | .str s => goAtoi s
  | .null => 0

/-- `strings.Split(s, ",")`. -/
def splitCharList (c : Char) : List Char → List (List Char)
  | [] => [[]]
  | x :: xs =>
    match splitCharList c xs with
    | [] => if x = c then [[], []] else [[x]]
    | h :: t => if x = c then [] :: h :: t else (x :: h) :: t

/-- `strings.Split(s, ",")` at the string level. -/
def splitComma (s : String) : List String :=
  (splitCharList ',' s.data).map (fun l => ⟨l⟩)

/-- `strings.Join(l, sep)` for one-character separators. -/
def joinWith (sep : String) : List String → String
  | [] => ""
  | [x] => x
  | x :: xs => x ++ sep ++ joinWith sep xs

/-! ## Parsers (`internal/xray/parser/parse.go`, helpers from the query
parameter file) -/

/-- One `if v := q.Get(k); v != "" { field = v }` step. -/
def qSet (cur v : String) : String := if v = "" then cur else v

/-- The `allowInsecure`/`insecure`/`allow_insecure` loop: first key with a
non-empty value wins; `1` or `true` mean insecure. -/
def insecureOf (q : List (String × String)) (cur : Bool) : Bool :=
  if qget q "allowInsecure" ≠ "" then
    qget q "allowInsecure" = "1" ∨ qget q "allowInsecure" = "true"
  else if qget q "insecure" ≠ "" then
    qget q "insecure" = "1" ∨ qget q "insecure" = "true"
  else if qget q "allow_insecure" ≠ "" then
    qget q "allow_insecure" = "1" ∨ qget q "allow_insecure" = "true"
  else cur

/-- `ParseQueryParam`: standard transport/security params. -/
def parseQueryParam (p : Profile) (q : List (String × String)) : Profile :=
  { p with
    network := qSet p.network (qget q "type"),
    headerType := qSet p.headerType (qget q "headerType"),
    host := qSet p.host (qget q "host"),
    path := qSet p.path (qget q "path"),
    seed := qSet p.seed (qget q "seed"),
    quicSecurity := qSet p.quicSecurity (qget q "quicSecurity"),
    quicKey := qSet p.quicKey (qget q "key"),
    mode := qSet p.mode (qget q "mode"),
    serviceName := qSet p.serviceName (qget q "serviceName"),
    authority := qSet p.authority (qget q "authority"),
    security := qSet p.security (qget q "security"),
    sni := qSet p.sni (qget q "sni"),
    fingerprint := qSet p.fingerprint (qget q "fp"),
    alpn := if qget q "alpn" = "" then p.alpn else splitComma (qget q "alpn"),
    pbk := qSet p.pbk (qget q "pbk"),
    sid := qSet p.sid (qget q "sid"),
    spiderX := qSet p.spiderX (qget q "spx"),
    flow := qSet p.flow (qget q "flow"),
    insecure := insecureOf q p.insecure }

/-- `parseVLESS` (also used for Trojan, Hysteria2 and standard-form VMess;
`u.Scheme` is lowercased by `url.Parse`). -/
def parseVLESSM (parts : URLParts) : Profile :=
  let p : Profile :=
    { protocol := lowerStr parts.scheme,
      address := parts.host,
      remarks := parts.fragment,
      password := userString parts.user,
      port := parts.port }
  let p := parseQueryParam p parts.query
  let m :=
    if p.protocol = "vless" then
      let e := qget parts.query "encryption"
      if e = "" then "none" else e
    else if p.protocol = "vmess" then "auto"
    else p.method
  { p with method := m }

/-- `parseTrojan`: retag the protocol and default the network to `tcp`. -/
def parseTrojanM (parts : URLParts) : Profile :=
  let p := parseVLESSM parts
  { p with
      protocol := "trojan",
      network := if p.network = "" then "tcp" else p.network }

/-- `parseHysteria2`: retag, read the obfs password and port hopping from
the (re-parsed) query, and derive `obfs = salamander` when a password is
present. -/
def parseHysteria2M (parts : URLParts) : Profile :=
  let p := parseVLESSM parts
  let op := qget parts.query "obfs-password"
  { p with
      protocol := "hysteria2",
      obfsPassword := op,
      portHopping := qget parts.query "mport",
      obfs := if op ≠ "" then "salamander" else p.obfs }

/-- `parseSocks` (SOCKS and HTTP share it). -/
def parseSocksM (parts : URLParts) (proto : String) : Profile :=
  { protocol := proto,
    address := parts.host,
    remarks := parts.fragment,
    port := parts.port,
    username := match parts.user with
      | some u => u.username
      | none => "",
    password := match parts.user with
      | some u => if u.hasPassword then u.password else ""
      | none => "" }

/-- `parseWireGuard` (`uint8(val)` wraps modulo 256). -/
def parseWireGuardM (parts : URLParts) : Profile :=
  let q := parts.query
  let la := qget q "address"
  { protocol := "wireguard",
    address := parts.host,
    remarks := parts.fragment,
    secretKey := userString parts.user,
    port := parts.port,
    publicKey := qget q "publickey",
    preSharedKey := qget q "presharedkey",
    localAddress := if la = "" then "172.16.0.2/32" else la,
    mtu := if qget q "mtu" ≠ "" then goAtoi (qget q "mtu") else 0,
    reserved := if qget q "reserved" ≠ "" then
        (splitComma (qget q "reserved")).map
          (fun part => ((goAtoi (trimSpaceStr part)) % 256).toNat)
      else [] }

/-- `parseShadowsocks`. -/
def parseShadowsocksM (parts : URLParts) : Option Profile :=
  let p0 : Profile :=
    { protocol := "shadowsocks",
      address := parts.host,
      remarks := parts.fragment,
      port := parts.port }
  let ui0 := userString parts.user
  let ui := if goContainsChar ui0 ':' then ui0
    else match decodeBase64 ui0 with
      | some d => d
      | none => ui0
  match splitFirstColon ui with
  | some (m, pw) =>
    let p := { p0 with method := m, password := pw }
    let plugin := qget parts.query "plugin"
    if containsSub plugin "obfs=http" then
      some { p with
          network := "tcp", headerType := "http",
          host := extractCapture "obfs-host=" plugin,
          path := extractCapture "path=" plugin }
    else some p
  | none => none

/-- `parseVMess`, legacy branch (after base64 + JSON decoding): an empty
`scy` defaults to `auto`; for gRPC the generic `type`/`path` carry the
mode and service name, for KCP the seed. -/
def parseVMessLegacyM (v : VmessJSON) : Profile :=
  { protocol := "vmess",
    remarks := v.ps,
    address := v.add,
    password := v.id,
    method := if v.scy = "" then "auto" else v.scy,
    network := v.net,
    host := v.host,
    path := v.path,
    security := v.tls,
    sni := v.sni,
    fingerprint := v.fp,
    port := jsonPortToInt v.port,
    headerType := v.typ,
    mode := if v.net = "grpc" then v.typ else "",
    serviceName := if v.net = "grpc" then v.path else "",
    seed := if v.net = "kcp" then v.path else "" }

/-- `Parse`: scheme dispatch.  A structured `vmess` generic URI takes the
`parseVLESS` branch exactly when its raw form contains both `?` and `&`;
for URIs whose components contain no literal `?`/`&`, that is when the
query has at least two parameters. -/
def parseM : URI → Option Profile
  | .vmessLegacy v => some (parseVMessLegacyM v)
  | .generic parts =>
    let scheme := lowerStr parts.scheme
    if scheme = "vmess" then
      if 2 ≤ parts.query.length then some (parseVLESSM parts) else none
    else if scheme = "vless" then some (parseVLESSM parts)
    else if scheme = "trojan" then some (parseTrojanM parts)
    else if scheme = "ss" ∨ scheme = "shadowsocks" then parseShadowsocksM parts
    else if scheme = "socks" ∨ scheme = "socks5" then some (parseSocksM parts "socks")
    else if scheme = "http" ∨ scheme = "https" then some (parseSocksM parts "http")
    else if scheme = "wireguard" then some (parseWireGuardM parts)
    else if scheme = "hysteria2" ∨ scheme = "hy2" then some (parseHysteria2M parts)
    else none

/-! ## Serializer (`internal/xray/parser/serialize.go`) -/

/-- `toVMessURI`: rebuild the legacy JSON payload (the emitted link is
`vmess://` + std-base64 of this struct; the struct is the faithful
content). -/
def vmessJSONof (p : Profile) : VmessJSON :=
  let v : VmessJSON :=
    { ps := p.remarks,
      add := p.address,
      port := .num p.port,
      id := p.password,
      scy := p.method,
      net := p.network,
      typ := p.headerType,
      host := p.host,
      path := p.path,
      tls := p.security,
      sni := p.sni,
      alpn := joinWith "," p.alpn,
      fp := p.fingerprint }
  if p.network = "grpc" then { v with typ := p.mode, path := p.serviceName }
  else if p.network = "kcp" then { v with path := p.seed }
  else v

/-- The plugin option string the Shadowsocks serializer builds for HTTP
obfuscation. -/
def ssPluginStr (p : Profile) : String :=
  let plugin := "obfs-local;obfs=http;obfs-host=" ++ p.host
  if p.path ≠ "" then plugin ++ ";path=" ++ p.path else plugin

/-- `toShadowsocksURI` (SIP002, URL-safe base64 userinfo, no padding). -/
def toShadowsocksURIM (p : Profile) : URLParts :=
  let userInfo := p.method ++ ":" ++ p.password
  let safeUser := b64UrlNoPad userInfo
  { scheme := "ss",
    user := some { username := safeUser },
    host := p.address,
    port := p.port,
    fragment := p.remarks,
    query := if p.headerType = "http" then sortQuery [("plugin", ssPluginStr p)]
      else [] }

/-- The conditional `q.Set` calls of `toGenericURI`, in source order -- a
guard, the key, and the value.  The WireGuard and Hysteria2 sub-blocks
carry their protocol guard conjoined. -/
def genericQBlocks (p : Profile) : List (Bool × String × String) :=
  [(decide (p.network ≠ "" ∧ p.network ≠ "tcp"), "type", p.network),
   (p.security != "", "security", p.security),
   (p.sni != "", "sni", p.sni),
   (p.fingerprint != "", "fp", p.fingerprint),
   (p.host != "", "host", p.host),
   (p.path != "", "path", p.path),
   (decide (p.headerType ≠ "" ∧ p.headerType ≠ "none"), "headerType", p.headerType),
   (p.serviceName != "", "serviceName", p.serviceName),
   (p.mode != "", "mode", p.mode),
   (!p.alpn.isEmpty, "alpn", joinWith "," p.alpn),
   (p.insecure, "allowInsecure", "1"),
   (p.pbk != "", "pbk", p.pbk),
   (p.sid != "", "sid", p.sid),
   (p.spiderX != "", "spx", p.spiderX),
   (p.flow != "", "flow", p.flow),
   (p.protocol == "wireguard", "publickey", p.publicKey),
   (p.protocol == "wireguard" && p.preSharedKey != "", "presharedkey", p.preSharedKey),
   (p.protocol == "wireguard" && p.localAddress != "", "address", p.localAddress),
   (p.protocol == "wireguard" && decide (0 < p.mtu), "mtu", toString p.mtu),
   (p.protocol == "wireguard" && !p.reserved.isEmpty, "reserved",
     joinWith "," (p.reserved.map (fun b => toString b))),
   (p.protocol == "hysteria2" && p.obfsPassword != "", "obfs-password", p.obfsPassword),
   (p.protocol == "hysteria2" && p.portHopping != "", "mport", p.portHopping)]

/-- A guarded query builder: one entry per conditional `q.Set` call, in
source order.  `buildQ` keeps exactly the guarded entries. -/
def buildQ : List (Bool × String × String) → List (String × String)
  | [] => []
  | b :: rest => (if b.1 then [(b.2.1, b.2.2)] else []) ++ buildQ rest

/-- First-match lookup over the guarded entries (what `qget` sees). -/
def firstEmit : List (Bool × String × String) → String → String
  | [], _ => ""
  | b :: rest, k => if b.2.1 = k ∧ b.1 then b.2.2 else firstEmit rest k

/-- `toGenericURI` (VLESS, Trojan, Hysteria2, WireGuard, SOCKS, HTTP):
userinfo, then the conditional `q.Set` calls, then `Encode` (sorted
keys). -/
def toGenericURIM (p : Profile) : URLParts :=
  let user : Option Userinfo :=
    if p.username ≠ "" then some { username := p.username, hasPassword := true, password := p.password }
    else if p.password ≠ "" then some { username := p.password }
    else none
  let q : List (String × String) := buildQ (genericQBlocks p)
  { scheme := p.protocol,
    user := user,
    host := p.address,
    port := p.port,
    fragment := p.remarks,
    query := sortQuery q }

/-- `ToURI`: protocol dispatch. -/
def toURIM (p : Profile) : URI :=
  if p.protocol = "vmess" then .vmessLegacy (vmessJSONof p)
  else if p.protocol = "shadowsocks" then .generic (toShadowsocksURIM p)
  else .generic (toGenericURIM p)

/-! ## Fingerprint (`CalculateHash`)

The source SHA-256-hashes the `|`-joined signature; we model the hash by
the signature string (see the header comment). -/

/-- The normalized method part (for `vless`, `none` collapses to `""`). -/
def hashMethod (p : Profile) : String :=
  let method := lowerStr p.method
  if p.protocol = "vless" ∧ method = "none" then "" else method

/-- The normalized network part (`""` means `tcp`). -/
def hashNet (p : Profile) : String :=
  let net := lowerStr p.network
  if net = "" then "tcp" else net

/-- The normalized header part (`none` collapses to `""`). -/
def hashHeader (p : Profile) : String :=
  let header := lowerStr p.headerType
  if header = "none" then "" else header

/-- The ordered parts of the signature. -/
def hashFields (p : Profile) : List String :=
  [lowerStr p.protocol, lowerStr p.address, toString p.port,
   p.username, p.password, p.secretKey, hashMethod p, hashNet p, hashHeader p,
   p.path, p.mode, p.serviceName, p.seed,
   p.flow, p.obfs, p.obfsPassword, p.pbk, p.sid,
   p.localAddress, p.publicKey]

/-- The `|`-joined signature `CalculateHash` hashes. -/
def hashSig (p : Profile) : String := sigJoin (hashFields p)

/-! ## Bucket (`internal/engine/bucket.go`)

`container/heap` with `Less` comparing scores keeps the minimum at the
root (`pq[0]`); `heap.Pop` removes it.  We model the heap by its
score contents kept in ascending order (head = root); pushing is ordered
insertion, popping drops the head.  The claims are about score contents,
which this represents exactly; the `ScoredProxy` payloads ride along in
the source but do not influence which scores are kept.  Scores are `ℚ`
(`float64` in the source).  `Offer` on a zero-capacity bucket indexes
`pq[0]` of an empty heap — a panic, modelled by `none`. -/

structure BucketM where
  capacity : ℕ
  scores : List ℚ
deriving DecidableEq

/-- `NewBucket`. -/
def newBucket (capacity : ℕ) : BucketM := ⟨capacity, []⟩

/-- `Bucket.Offer`; the `Bool` is the accepted/rejected return. -/
def bucketOffer (b : BucketM) (score : ℚ) : Option (BucketM × Bool) :=
  if score ≤ 0 then some (b, false)
  else if b.scores.length < b.capacity then
    some ({ b with scores := b.scores.orderedInsert (· ≤ ·) score }, true)
  else
    match b.scores with
    | [] => none
    | worst :: rest =>
      if worst < score then
        some ({ b with scores := rest.orderedInsert (· ≤ ·) score }, true)
      else some (b, false)

/-- A finite sequence of `Offer` calls. -/
def runOffers (b : BucketM) : List ℚ → Option BucketM
  | [] => some b
  | s :: rest =>
    match bucketOffer b s with
    | some (b', _) => runOffers b' rest
    | none => none

/-! ## History engine (`internal/engine/history.go`)

The `proxy_performances` table is a list of records; `Find` with the
composite key is a first-match lookup, `Save` replaces the matching row
(timestamps are not modelled; database errors are out of scope). -/

/-- `HistoryAlpha = 0.2`. -/
def historyAlpha : ℚ := 2 / 10

/-- `FailurePenalty = 0.6`. -/
def failurePenalty : ℚ := 6 / 10

structure PerfRecord where
  proxyId : ℕ
  userISP : String
  score : ℚ
  sampleCount : ℕ
deriving DecidableEq

/-- `db.Where("proxy_id = ? AND user_isp = ?").Limit(1).Find(&perf)`. -/
def findPerf (db : List PerfRecord) (id : ℕ) (isp : String) : Option PerfRecord :=
  db.find? (fun r => r.proxyId == id && r.userISP == isp)

/-- `db.Save(&perf)`: update the row with this primary key, or insert. -/
def savePerf (db : List PerfRecord) (r : PerfRecord) : List PerfRecord :=
  if (findPerf db r.proxyId r.userISP).isSome then
    db.map (fun x => if x.proxyId == r.proxyId && x.userISP == r.userISP then r else x)
  else db ++ [r]

/-- `HistoryEngine.UpdateHistory`: returns the updated table and the
returned score.  A found row always carries the queried `proxyId`, so the
source's `perf.ProxyID == 0` re-creation test fires exactly when the row
is missing or the queried id is 0. -/
def updateHistory (db : List PerfRecord) (proxyId : ℕ) (userISP : String)
    (rawSpeed baselineSpeed : ℚ) : List PerfRecord × ℚ :=
  let currentNormalized : ℚ :=
    if 0 < baselineSpeed ∧ 0 < rawSpeed then rawSpeed / baselineSpeed else 0
  let perf : PerfRecord :=
    match findPerf db proxyId userISP with
    | none =>
      { proxyId := proxyId, userISP := userISP, score := currentNormalized,
        sampleCount := 1 }
    | some r =>
      if r.proxyId = 0 then
        { proxyId := proxyId, userISP := userISP, score := currentNormalized,
          sampleCount := 1 }
      else
        { r with
            score := if 0 < currentNormalized then
                r.score * (1 - historyAlpha) + currentNormalized * historyAlpha
              else r.score * failurePenalty,
            sampleCount := r.sampleCount + 1 }
  (savePerf db perf, perf.score)

/-- `N` consecutive `UpdateHistory` calls with given raw/baseline pairs. -/
def updateHistoryRuns (db : List PerfRecord) (proxyId : ℕ) (userISP : String) :
    List (ℚ × ℚ) → List PerfRecord
  | [] => db
  | m :: ms =>
    updateHistoryRuns (updateHistory db proxyId userISP m.1 m.2).1 proxyId userISP ms

/-- `HistoryEngine.GetPredictiveScore`.  `AVG(score)` over an empty set is
`NULL`, scanned into `0.0`; the query itself is assumed error-free. -/
def getPredictiveScore (db : List PerfRecord) (proxyId : ℕ) (userISP : String) : ℚ :=
  let coldStart : ℚ :=
    let others := db.filter (fun r => r.proxyId == proxyId && r.userISP != userISP)
    let avg : ℚ := if others.isEmpty then 0 else (others.map (fun r => r.score)).sum / others.length
    if 0 < avg then avg * (8 / 10) else 2 / 10
  match findPerf db proxyId userISP with
  | some perf => if perf.proxyId = 0 then coldStart else perf.score
  | none => coldStart

/-! ## Annealer loop (`internal/engine/annealer.go`, `Run`)

Only the loop control is relevant to the claims: the temperature window,
the candidate selection (20 random attempts, then a linear scan) and the
budget/tested-set bookkeeping.  Random draws are supplied by an oracle
list and reduced modulo the sampling window, a faithful parametrisation
of `rand.Intn(rangeSize)`; probe outcomes are likewise oracle inputs.
History and bucket updates do not feed back into the loop control and are
not repeated here. -/

/-- Go's `int(f)` float-to-int conversion truncates toward zero. -/
def goTruncQ (x : ℚ) : ℤ := if 0 ≤ x then ⌊x⌋ else ⌈x⌉

/-- Lines 128–134 of the loop: temperature and sampling window. -/
def rangeSizeGo (n : ℕ) (dataUsed limit : ℚ) : ℤ :=
  let temperature := 1 - dataUsed / limit
  let r := goTruncQ ((n : ℚ) * temperature)
  if r < 1 then 1 else if (n : ℤ) < r then (n : ℤ) else r

structure IterOracle where
  randDraws : List ℕ
  startErr : Bool
  analyzeErr : Bool
  bytes : ℤ
  speedErr : Bool

structure AnnealState where
  tested : Finset ℕ
  dataUsed : ℚ

/-- Candidate selection: up to 20 random attempts inside the window, then
a linear scan for the first untested candidate. -/
def pickCandidate (cands : List ℕ) (tested : Finset ℕ) (rangeSize : ℕ)
    (draws : List ℕ) : Option ℕ :=
  match (draws.take 20).findSome? (fun d =>
      match cands.get? (d % rangeSize) with
      | some c => if c ∉ tested then some c else none
      | none => none) with
  | some c => some c
  | none => cands.find? (fun c => decide (c ∉ tested))

/-- One iteration of the `Run` loop; `none` means the loop breaks before
running a test. -/
def annealStep (cands : List ℕ) (strict : Bool) (limit : ℚ)
    (st : AnnealState) (o : IterOracle) : Option AnnealState :=
  if ¬ st.dataUsed < limit then none
  else if cands.length ≤ st.tested.card then none
  else
    let rangeSize := (rangeSizeGo cands.length st.dataUsed limit).toNat
    match pickCandidate cands st.tested rangeSize o.randDraws with
    | none => none
    | some c =>
      let tested' := insert c st.tested
      if o.startErr then some ⟨tested', st.dataUsed⟩
      else if strict && o.analyzeErr then some ⟨tested', st.dataUsed⟩
      else
        let du := st.dataUsed + (o.bytes : ℚ) / (1024 * 1024)
        let du := if o.speedErr then du + 2 / 10 else du
        some ⟨tested', du⟩

/-- The loop, driven by an oracle stream; returns the final state and the
number of iterations whose body ran. -/
def annealRun (cands : List ℕ) (strict : Bool) (limit : ℚ) :
    List IterOracle → AnnealState → AnnealState × ℕ
  | [], st => (st, 0)
  | o :: os, st =>
    match annealStep cands strict limit st o with
    | none => (st, 0)
    | some st' =>
      let r := annealRun cands strict limit os st'
      (r.1, r.2 + 1)

/-! ## Environment baseline (`internal/environment/env.go` and the test
command's fallback) -/

structure GeoMeta where
  ip : String
  isp : String
  country : String

structure EnvM where
  isp : String
  baselineSpeed : ℚ
deriving DecidableEq

/-- `environment.Detect`: probe outcomes are inputs; a failed analyze or
baseline speed test is logged and surfaces as an error (`none`). -/
def detectEnv (analyzeRes : Option GeoMeta) (performSpeedTest : Bool)
    (speedRes : Option ℚ) : Option EnvM :=
  match analyzeRes with
  | none => none
  | some meta =>
    if performSpeedTest then
      match speedRes with
      | none => none
      | some s => some ⟨meta.isp, s⟩
    else some ⟨meta.isp, 0⟩

/-- The fallback observer-ISP string the test command uses when `Detect`
fails (written without a literal quote character). -/
def testCmdFallbackISP : String :=
  "ip-api error, not detected(i sure hope this isn" ++
    String.singleton (Char.ofNat 39) ++ "t a real isp)"

/-- The test command's environment step: on `Detect` failure it logs an
error and continues with the fallback environment instead of aborting. -/
def testCmdEnv (analyzeRes : Option GeoMeta) (speedRes : Option ℚ) : EnvM :=
  match detectEnv analyzeRes true speedRes with
  | some e => e
  | none => ⟨testCmdFallbackISP, 1⟩

/-! ## Speed probe (`internal/tester/tester.go`, `SpeedCheck`)

The wall-clock behaviour of one probe is abstracted into a trace:
`ttfb` is the time from issuing the request until the response (headers)
returns, `bodyTime` the time spent streaming the body; `start` is taken
before `client.Do`, so the measured duration is their sum. -/

structure SpeedTrace where
  connectErr : Bool
  statusCode : ℤ
  ttfb : ℚ
  bodyTime : ℚ
  written : ℤ
  copyErrNonEOF : Bool

structure SpeedResult where
  mbps : ℚ
  bytes : ℤ
  isErr : Bool
deriving DecidableEq

/-- `Tester.SpeedCheck`. -/
def speedCheck (tr : SpeedTrace) : SpeedResult :=
  if tr.connectErr then ⟨0, 0, true⟩
  else if tr.statusCode ≠ 200 then ⟨0, 0, true⟩
  else
    let duration := tr.ttfb + tr.bodyTime
    if duration = 0 then ⟨0, tr.written, true⟩
    else
      let mbps := (tr.written : ℚ) * 8 / duration / 1000000
      if tr.copyErrNonEOF then ⟨mbps, tr.written, true⟩
      else ⟨mbps, tr.written, false⟩

/-! ## VMess dispatch (`parseVMess`, scheme-level) -/

inductive VMessForm where
  | generic
  | legacy
deriving DecidableEq

/-- The branch `parseVMess` takes on a raw link: the generic URI parser
when the string contains both `?` and `&`, the base64-of-JSON decoder
otherwise. -/
def parseVMessForm (raw : String) : VMessForm :=
  if goContainsChar raw '?' && goContainsChar raw '&' then .generic else .legacy

/-- The header normalization used inside the fingerprint (lowercase,
`none` collapses). -/
def normHdr (s : String) : String :=
  if lowerStr s = "none" then "" else lowerStr s

/-! ## Round-trip safety -/

def RTSafe (p : Profile) : Prop :=
  if p.protocol = "vless" then p.seed = "" ∧ lowerStr p.method = "none"
  else if p.protocol = "trojan" ∨ p.protocol = "hysteria2" then p.seed = ""
  else if p.protocol = "socks" ∨ p.protocol = "http" then
    p.username = "" → p.password = ""
  else if p.protocol = "wireguard" then p.secretKey = ""
  else if p.protocol = "shadowsocks" then
    ByteStr p.method ∧ ByteStr p.password ∧
      (p.headerType = "http" → extractCapture "path=" (ssPluginStr p) = p.path)
  else if p.protocol = "vmess" then
    p.flow = "" ∧ p.pbk = "" ∧ p.sid = "" ∧
      (p.network = "grpc" → normHdr p.headerType = normHdr p.mode ∧
        p.path = p.serviceName ∧ p.seed = "") ∧
      (p.network = "kcp" → p.path = p.seed ∧ p.mode = "" ∧ p.serviceName = "") ∧
      (p.network ≠ "grpc" → p.network ≠ "kcp" →
        p.seed = "" ∧ p.mode = "" ∧ p.serviceName = "")
  else True

instance (p : Profile) : Decidable (RTSafe p) := by
  unfold RTSafe
  infer_instance

def wgCexParts : URLParts :=
  { scheme := "wireguard",
    user := some { username := "PRIVKEY" },
    host := "1.2.3.4",
    port := 51820,
    query := [("publickey", "PUB")] }

def trojanWitParts : URLParts :=
  { scheme := "trojan",
    user := some { username := "pw" },
    host := "example.com",
    port := 443 }

/-! ## C8: speed probe timing -/

/-- The throughput the spec describes: denominator starting after the
response headers arrive, i.e. only the body-streaming time
(spec-modelled, for comparison with `speedCheck`). -/
def speedSpecMbps (tr : SpeedTrace) : ℚ :=
  (tr.written : ℚ) * 8 / tr.bodyTime / 1000000

def ttfbTrace : SpeedTrace :=
  { connectErr := false, statusCode := 200, ttfb := 1, bodyTime := 1,
    written := 2000000, copyErrNonEOF := false }

/-! ## C7: annealer sampling window -/

/-- The window the spec describes: nearest-integer rounding before the
`max 1` clamp (spec-modelled, for comparison with `rangeSizeGo`). -/
def rangeSizeSpec (n : ℕ) (dataUsed limit : ℚ) : ℤ :=
  let temperature := max 0 (min 1 (1 - dataUsed / limit))
  max 1 (round ((n : ℚ) * temperature))

/-! ## C2: cosmetic fields and the fingerprint -/

def ssObfsHostA : Profile :=
  { protocol := "shadowsocks", address := "1.2.3.4", port := 8388,
    method := "aes-256-gcm", password := "pw", network := "tcp",
    headerType := "http", host := "a.example.com", path := "/" }

def ssObfsHostB : Profile := { ssObfsHostA with host := "b.example.com" }

/-! ## C3: bucket top-K invariant -/

/-- The positive scores among the offers made so far, as a multiset. -/
def posM (seen : List ℚ) : Multiset ℚ :=
  ↑(seen.filter (fun s => decide (0 < s)))

/-- The loop invariant: the bucket holds a sub-multiset of the positive
offers, of size `min k (number of positive offers)`, kept ascending, and
every positive offer not held is at most every held score. -/
def BucketInv (k : ℕ) (seen : List ℚ) (b : BucketM) : Prop :=
  b.capacity = k ∧
  List.Sorted (· ≤ ·) b.scores ∧
  (b.scores : Multiset ℚ) ≤ posM seen ∧
  b.scores.length = min k (Multiset.card (posM seen)) ∧
  ∀ x ∈ posM seen - (b.scores : Multiset ℚ), ∀ y ∈ b.scores, x ≤ y

theorem charOfNat_toNat (c : Char) (h : c.toNat < 256) : Char.ofNat c.toNat = c := by
  have hv : Nat.isValidChar c.toNat := Or.inl (by omega)
  rcases c with ⟨⟨v, hlt⟩, hvc⟩
  simp only [Char.ofNat, Char.toNat] at *
  rw [dif_pos hv]
  rfl

theorem bytesToStr_strBytes (s : String) (h : ByteStr s) :
    bytesToStr (strBytes s) = s := by
  rcases s with ⟨data⟩
  simp only [bytesToStr, strBytes, List.map_map]
  congr 1
  calc data.map (Char.ofNat ∘ Char.toNat)
      = data.map id := List.map_congr_left (fun c hc => charOfNat_toNat c (h c hc))
    _ = data := List.map_id data

theorem b64UrlChar_ne_eq : ∀ n, n < 64 → b64UrlChar n ≠ '=' := by decide

theorem sexOf_url_urlChar : ∀ n, n < 64 →
    sexOf b64UrlAlphabet (b64UrlChar n) = some n := by decide

theorem sexOf_std_urlChar : ∀ n, n < 64 →
    sexOf b64StdAlphabet (b64UrlChar n) = some n ∨
    sexOf b64StdAlphabet (b64UrlChar n) = none := by decide

theorem b64EncodeSextets_lt (bs : List ℕ) (hb : ∀ b ∈ bs, b < 256) :
    ∀ x ∈ b64EncodeSextets bs, x < 64 := by
  induction bs using b64EncodeSextets.induct with
  | case1 => simp [b64EncodeSextets]
  | case2 b1 =>
    have := hb b1 (by simp)
    simp only [b64EncodeSextets, List.mem_cons, List.mem_singleton]
    rintro x (rfl | rfl | h) <;> first | omega | simp at h
  | case3 b1 b2 =>
    have h1 := hb b1 (by simp)
    have h2 := hb b2 (by simp)
    simp only [b64EncodeSextets, List.mem_cons, List.mem_singleton]
    rintro x (rfl | rfl | rfl | h) <;> first | omega | simp at h
  | case4 b1 b2 b3 rest ih =>
    have h1 := hb b1 (by simp)
    have h2 := hb b2 (by simp)
    have h3 := hb b3 (by simp)
    have ih' := ih (fun b hbm => hb b (by simp [hbm]))
    simp only [b64EncodeSextets, List.mem_cons]
    rintro x (rfl | rfl | rfl | rfl | h)
    · omega
    · omega
    · omega
    · omega
    · exact ih' x h

theorem padFix_cons4 (a b c d : Char) (l : List Char) :
    padFix (a :: b :: c :: d :: l) = a :: b :: c :: d :: padFix l := by
  simp only [padFix, List.length_cons]
  have : (l.length + 1 + 1 + 1 + 1) % 4 = l.length % 4 := by omega
  rw [this]
  by_cases h : l.length % 4 = 0 <;> simp [h]

theorem divReassemble (x y m : ℕ) (hy : y < m) (hm : 0 < m) :
    (x * m + y) / m = x := by
  rw [Nat.mul_comm, Nat.mul_add_div hm, Nat.div_eq_of_lt hy, Nat.add_zero]

theorem modReassemble (x y m : ℕ) (hy : y < m) : (x * m + y) % m = y := by
  rw [Nat.mul_comm, Nat.mul_add_mod, Nat.mod_eq_of_lt hy]

/-- Decoding an encoded byte stream with an alphabet that agrees with the
URL alphabet wherever it recognises a character either recovers the bytes
or fails cleanly (the standard alphabet rejects `-`/`_`). -/
theorem b64DecodeGroups_encode (alpha : List Char)
    (hA : ∀ n, n < 64 → sexOf alpha (b64UrlChar n) = some n ∨
      sexOf alpha (b64UrlChar n) = none)
    (bs : List ℕ) (hb : ∀ b ∈ bs, b < 256) :
    b64DecodeGroups alpha (padFix ((b64EncodeSextets bs).map b64UrlChar)) = some bs ∨
    (b64DecodeGroups alpha (padFix ((b64EncodeSextets bs).map b64UrlChar)) = none ∧
      ∃ n, n < 64 ∧ sexOf alpha (b64UrlChar n) = none) := by
  induction bs using b64EncodeSextets.induct with
  | case1 =>
    left
    simp [b64EncodeSextets, padFix, b64DecodeGroups]
  | case2 b1 =>
    have h1 : b1 < 256 := hb b1 (by simp)
    have e1 : b1 / 4 < 64 := by omega
    have e2 : b1 % 4 * 16 < 64 := by omega
    simp only [b64EncodeSextets, List.map_cons, List.map_nil, padFix,
      List.length_cons, List.length_nil]
    norm_num [List.replicate]
    rcases hA _ e1 with q1 | q1 <;> rcases hA _ e2 with q2 | q2
    on_goal 1 =>
      left
      simp only [b64DecodeGroups, q1, q2, if_true, Option.some.injEq,
        List.cons.injEq, and_true]
      rw [Nat.mul_div_cancel _ (by norm_num : (0:ℕ) < 16)]
      omega
    all_goals right
    all_goals refine ⟨by simp [b64DecodeGroups, q1, q2], ?_⟩
    all_goals first
      | exact ⟨_, e1, q1⟩
      | exact ⟨_, e2, q2⟩
  | case3 b1 b2 =>
    have h1 : b1 < 256 := hb b1 (by simp)
    have h2 : b2 < 256 := hb b2 (by simp)
    have e1 : b1 / 4 < 64 := by omega
    have e2 : b1 % 4 * 16 + b2 / 16 < 64 := by omega
    have e3 : b2 % 16 * 4 < 64 := by omega
    have hlt : b2 / 16 < 16 := by omega
    simp only [b64EncodeSextets, List.map_cons, List.map_nil, padFix,
      List.length_cons, List.length_nil]
    norm_num [List.replicate]
    have hne : b64UrlChar (b2 % 16 * 4) ≠ '=' := b64UrlChar_ne_eq _ e3
    rcases hA _ e1 with q1 | q1 <;> rcases hA _ e2 with q2 | q2 <;>
      rcases hA _ e3 with q3 | q3
    on_goal 1 =>
      left
      simp only [b64DecodeGroups, q1, q2, q3, if_neg hne, if_true,
        Option.some.injEq, List.cons.injEq, and_true]
      rw [divReassemble _ _ _ hlt (by norm_num), modReassemble _ _ _ hlt,
        Nat.mul_div_cancel _ (by norm_num : (0:ℕ) < 4)]
      omega
    all_goals right
    all_goals refine ⟨by simp [b64DecodeGroups, q1, q2, q3, if_neg hne], ?_⟩
    all_goals first
      | exact ⟨_, e1, q1⟩
      | exact ⟨_, e2, q2⟩
      | exact ⟨_, e3, q3⟩
  | case4 b1 b2 b3 rest ih =>
    have h1 : b1 < 256 := hb b1 (by simp)
    have h2 : b2 < 256 := hb b2 (by simp)
    have h3 : b3 < 256 := hb b3 (by simp)
    have ih' := ih (fun b hbm => hb b (by simp [hbm]))
    have e1 : b1 / 4 < 64 := by omega
    have e2 : b1 % 4 * 16 + b2 / 16 < 64 := by omega
    have e3 : b2 % 16 * 4 + b3 / 64 < 64 := by omega
    have e4 : b3 % 64 < 64 := by omega
    have hlt2 : b2 / 16 < 16 := by omega
    have hlt3 : b3 / 64 < 4 := by omega
    have hne3 : b64UrlChar (b2 % 16 * 4 + b3 / 64) ≠ '=' := b64UrlChar_ne_eq _ e3
    have hne4 : b64UrlChar (b3 % 64) ≠ '=' := b64UrlChar_ne_eq _ e4
    simp only [b64EncodeSextets, List.map_cons]
    rw [padFix_cons4]
    rcases hA _ e1 with q1 | q1 <;> rcases hA _ e2 with q2 | q2 <;>
      rcases hA _ e3 with q3 | q3 <;> rcases hA _ e4 with q4 | q4
    on_goal 1 =>
      rcases ih' with hrec | hrec
      · left
        simp only [b64DecodeGroups, q1, q2, q3, q4, if_neg hne3, if_neg hne4,
          hrec, Option.some.injEq, List.cons.injEq]
        rw [divReassemble _ _ _ hlt2 (by norm_num), modReassemble _ _ _ hlt2,
          divReassemble _ _ _ hlt3 (by norm_num), modReassemble _ _ _ hlt3]
        refine ⟨by omega, by omega, by omega, trivial⟩
      · right
        refine ⟨by simp [b64DecodeGroups, q1, q2, q3, q4, if_neg hne3,
          if_neg hne4, hrec.1], hrec.2⟩
    all_goals right
    all_goals refine
      ⟨by simp [b64DecodeGroups, q1, q2, q3, q4, if_neg hne3, if_neg hne4], ?_⟩
    all_goals first
      | exact ⟨_, e1, q1⟩
      | exact ⟨_, e2, q2⟩
      | exact ⟨_, e3, q3⟩
      | exact ⟨_, e4, q4⟩

theorem b64DecodeGroups_encode_url (bs : List ℕ) (hb : ∀ b ∈ bs, b < 256) :
    b64DecodeGroups b64UrlAlphabet
      (padFix ((b64EncodeSextets bs).map b64UrlChar)) = some bs := by
  rcases b64DecodeGroups_encode b64UrlAlphabet
      (fun n hn => Or.inl (sexOf_url_urlChar n hn)) bs hb with h | ⟨_, n, hn, hnone⟩
  · exact h
  · exact absurd (sexOf_url_urlChar n hn) (by simp [hnone])

theorem strBytes_lt (s : String) (h : ByteStr s) : ∀ b ∈ strBytes s, b < 256 := by
  intro b hb
  simp only [strBytes, List.mem_map] at hb
  obtain ⟨c, hc, rfl⟩ := hb
  exact h c hc

/-- Round trip: the source's `DecodeBase64` inverts the serializer's
URL-safe no-padding encoding. -/
theorem decodeBase64_b64UrlNoPad (s : String) (h : ByteStr s) :
    decodeBase64 (b64UrlNoPad s) = some s := by
  by_cases hs : s = ""
  · subst hs
    rfl
  · have hdata : s.data ≠ [] := fun hnil => hs (by
      rcases s with ⟨d⟩; simp at hnil; simp [hnil])
    have henc : b64UrlNoPad s ≠ "" := by
      rcases s with ⟨d⟩
      rcases d with _ | ⟨c, rest⟩
      · simp at hdata
      · rcases rest with _ | ⟨c2, rest2⟩
        · simp [b64UrlNoPad, strBytes, b64EncodeSextets, String.ext_iff]
        · rcases rest2 with _ | ⟨c3, rest3⟩ <;>
            simp [b64UrlNoPad, strBytes, b64EncodeSextets, String.ext_iff]
    have hb := strBytes_lt s h
    have hdat : (b64UrlNoPad s).data = (b64EncodeSextets (strBytes s)).map b64UrlChar := rfl
    rw [decodeBase64, if_neg henc, hdat]
    rcases b64DecodeGroups_encode b64StdAlphabet sexOf_std_urlChar (strBytes s) hb
        with hstd | ⟨hstd, _⟩
    · simp [hstd, bytesToStr_strBytes s h]
    · simp [hstd, b64DecodeGroups_encode_url (strBytes s) hb,
        bytesToStr_strBytes s h]

theorem b64UrlChar_ne_colon : ∀ n, n < 64 → b64UrlChar n ≠ ':' := by decide

/-- The encoded userinfo never contains a colon, so the re-parse always
takes the base64 branch. -/
theorem b64UrlNoPad_no_colon (s : String) (h : ByteStr s) :
    goContainsChar (b64UrlNoPad s) ':' = false := by
  have hb := strBytes_lt s h
  have hlt := b64EncodeSextets_lt (strBytes s) hb
  simp only [goContainsChar, b64UrlNoPad, List.contains_eq_any_beq,
    List.any_eq_false]
  intro c hc
  simp only [List.mem_map] at hc
  obtain ⟨n, hn, rfl⟩ := hc
  have := b64UrlChar_ne_colon n (hlt n hn)
  simpa using fun heq => this heq.symm

/-! ## Query lookup lemmas -/

theorem qget_nil (k : String) : qget [] k = "" := rfl

theorem qget_cons (x : String × String) (t : List (String × String)) (k : String) :
    qget (x :: t) k = if x.1 == k then x.2 else qget t k := by
  simp only [qget, List.find?]
  cases h : x.1 == k <;> simp [h]

theorem qget_perm {l₁ l₂ : List (String × String)} (h : l₁.Perm l₂)
    (hnd : (l₁.map Prod.fst).Nodup) (k : String) : qget l₁ k = qget l₂ k := by
  induction h with
  | nil => rfl
  | cons x h ih =>
    simp only [List.map_cons, List.nodup_cons] at hnd
    rw [qget_cons, qget_cons, ih hnd.2]
  | swap x y t =>
    simp only [List.map_cons, List.nodup_cons, List.mem_cons] at hnd
    have hxy : y.1 ≠ x.1 := fun e => hnd.1 (Or.inl e)
    rw [qget_cons, qget_cons, qget_cons, qget_cons]
    by_cases hy : y.1 = k <;> by_cases hx : x.1 = k <;>
      simp [hy, hx, beq_iff_eq]
    exact absurd (hy.trans hx.symm) hxy
  | trans h1 h2 ih1 ih2 =>
    rw [ih1 hnd, ih2 ((h1.map Prod.fst).nodup_iff.mp hnd)]

theorem sortQuery_perm (l : List (String × String)) : (sortQuery l).Perm l :=
  List.perm_insertionSort _ l

theorem qget_sortQuery (l : List (String × String))
    (hnd : (l.map Prod.fst).Nodup) (k : String) :
    qget (sortQuery l) k = qget l k := by
  exact (qget_perm (sortQuery_perm l).symm hnd k).symm

theorem buildQ_keys_sublist (bs : List (Bool × String × String)) :
    ((buildQ bs).map Prod.fst).Sublist (bs.map (fun b => b.2.1)) := by
  induction bs with
  | nil => simp [buildQ]
  | cons b rest ih =>
    simp only [buildQ, List.map_append, List.map_cons]
    cases hb : b.1 <;> simp
    · exact ih.cons _
    · exact ih

theorem buildQ_keys_nodup (bs : List (Bool × String × String))
    (h : (bs.map (fun b => b.2.1)).Nodup) : ((buildQ bs).map Prod.fst).Nodup :=
  h.sublist (buildQ_keys_sublist bs)

theorem qget_buildQ (bs : List (Bool × String × String)) (k : String) :
    qget (buildQ bs) k = firstEmit bs k := by
  induction bs with
  | nil => rfl
  | cons b rest ih =>
    cases hb : b.1 <;>
      simp [buildQ, firstEmit, hb, ih, qget_cons, beq_iff_eq]

/-- End-to-end: looking a key up in the sorted emitted query is the
first-match over the guarded entries, provided the emitted keys are
distinct. -/
theorem qget_sortQuery_buildQ (bs : List (Bool × String × String))
    (hnd : (bs.map (fun b => b.2.1)).Nodup) (k : String) :
    qget (sortQuery (buildQ bs)) k = firstEmit bs k := by
  rw [qget_sortQuery _ (buildQ_keys_nodup bs hnd), qget_buildQ]

/-! ## Reparse of the generic serializer output, key by key -/

theorem genericQBlocks_keys_nodup (p : Profile) :
    ((genericQBlocks p).map (fun b => b.2.1)).Nodup := by
  simp only [genericQBlocks, List.map_cons, List.map_nil]
  decide

theorem toGenericURIM_query (p : Profile) :
    (toGenericURIM p).query = sortQuery (buildQ (genericQBlocks p)) := rfl

theorem reparse_q_type (p : Profile) :
    qget (toGenericURIM p).query "type" =
      if p.network ≠ "" ∧ p.network ≠ "tcp" then p.network else "" := by
  rw [toGenericURIM_query, qget_sortQuery_buildQ _ (genericQBlocks_keys_nodup p)]
  simp [firstEmit, genericQBlocks]

theorem reparse_q_headerType (p : Profile) :
    qget (toGenericURIM p).query "headerType" =
      if p.headerType ≠ "" ∧ p.headerType ≠ "none" then p.headerType else "" := by
  rw [toGenericURIM_query, qget_sortQuery_buildQ _ (genericQBlocks_keys_nodup p)]
  simp [firstEmit, genericQBlocks]

theorem reparse_q_path (p : Profile) :
    qget (toGenericURIM p).query "path" = if p.path ≠ "" then p.path else "" := by
  rw [toGenericURIM_query, qget_sortQuery_buildQ _ (genericQBlocks_keys_nodup p)]
  simp [firstEmit, genericQBlocks]

theorem reparse_q_mode (p : Profile) :
    qget (toGenericURIM p).query "mode" = if p.mode ≠ "" then p.mode else "" := by
  rw [toGenericURIM_query, qget_sortQuery_buildQ _ (genericQBlocks_keys_nodup p)]
  simp [firstEmit, genericQBlocks]

theorem reparse_q_serviceName (p : Profile) :
    qget (toGenericURIM p).query "serviceName" =
      if p.serviceName ≠ "" then p.serviceName else "" := by
  rw [toGenericURIM_query, qget_sortQuery_buildQ _ (genericQBlocks_keys_nodup p)]
  simp [firstEmit, genericQBlocks]

theorem reparse_q_seed (p : Profile) :
    qget (toGenericURIM p).query "seed" = "" := by
  rw [toGenericURIM_query, qget_sortQuery_buildQ _ (genericQBlocks_keys_nodup p)]
  simp [firstEmit, genericQBlocks]

theorem reparse_q_flow (p : Profile) :
    qget (toGenericURIM p).query "flow" = if p.flow ≠ "" then p.flow else "" := by
  rw [toGenericURIM_query, qget_sortQuery_buildQ _ (genericQBlocks_keys_nodup p)]
  simp [firstEmit, genericQBlocks]

theorem reparse_q_pbk (p : Profile) :
    qget (toGenericURIM p).query "pbk" = if p.pbk ≠ "" then p.pbk else "" := by
  rw [toGenericURIM_query, qget_sortQuery_buildQ _ (genericQBlocks_keys_nodup p)]
  simp [firstEmit, genericQBlocks]

theorem reparse_q_sid (p : Profile) :
    qget (toGenericURIM p).query "sid" = if p.sid ≠ "" then p.sid else "" := by
  rw [toGenericURIM_query, qget_sortQuery_buildQ _ (genericQBlocks_keys_nodup p)]
  simp [firstEmit, genericQBlocks]

theorem reparse_q_encryption (p : Profile) :
    qget (toGenericURIM p).query "encryption" = "" := by
  rw [toGenericURIM_query, qget_sortQuery_buildQ _ (genericQBlocks_keys_nodup p)]
  simp [firstEmit, genericQBlocks]

theorem reparse_q_obfsPassword (p : Profile) :
    qget (toGenericURIM p).query "obfs-password" =
      if p.protocol = "hysteria2" ∧ p.obfsPassword ≠ "" then p.obfsPassword
      else "" := by
  rw [toGenericURIM_query, qget_sortQuery_buildQ _ (genericQBlocks_keys_nodup p)]
  simp [firstEmit, genericQBlocks]

theorem reparse_q_publickey (p : Profile) :
    qget (toGenericURIM p).query "publickey" =
      if p.protocol = "wireguard" then p.publicKey else "" := by
  rw [toGenericURIM_query, qget_sortQuery_buildQ _ (genericQBlocks_keys_nodup p)]
  simp [firstEmit, genericQBlocks]

theorem reparse_q_address (p : Profile) :
    qget (toGenericURIM p).query "address" =
      if p.protocol = "wireguard" ∧ p.localAddress ≠ "" then p.localAddress
      else "" := by
  rw [toGenericURIM_query, qget_sortQuery_buildQ _ (genericQBlocks_keys_nodup p)]
  simp [firstEmit, genericQBlocks]

/-! ## Round-trip stability building blocks -/

theorem lowerStr_empty : lowerStr "" = "" := by decide

theorem lowerStr_tcp : lowerStr "tcp" = "tcp" := by decide

theorem lowerStr_noneLit : lowerStr "none" = "none" := by decide

theorem lowerStr_vless : lowerStr "vless" = "vless" := by decide

theorem lowerStr_trojan : lowerStr "trojan" = "trojan" := by decide

theorem lowerStr_hysteria2 : lowerStr "hysteria2" = "hysteria2" := by decide

theorem lowerStr_wireguard : lowerStr "wireguard" = "wireguard" := by decide

theorem lowerStr_socks : lowerStr "socks" = "socks" := by decide

theorem lowerStr_http : lowerStr "http" = "http" := by decide

theorem lowerStr_shadowsocks : lowerStr "shadowsocks" = "shadowsocks" := by decide

theorem lowerStr_vmess : lowerStr "vmess" = "vmess" := by decide

theorem lowerStr_auto : lowerStr "auto" = "auto" := by decide

theorem ifne_collapse (x : String) :
    (if (if x ≠ "" then x else "") = "" then "" else if x ≠ "" then x else "") = x := by
  by_cases h : x = "" <;> simp [h]

theorem userString_toGeneric (p : Profile) (hu : p.username = "") :
    userString (toGenericURIM p).user = p.password := by
  have : (toGenericURIM p).user =
      (if p.username ≠ "" then
        some { username := p.username, hasPassword := true, password := p.password }
      else if p.password ≠ "" then some { username := p.password }
      else none) := rfl
  rw [this, hu]
  by_cases hpw : p.password = "" <;> simp [hpw, userString]

theorem rvf_protocol (p : Profile) :
    (parseVLESSM (toGenericURIM p)).protocol = lowerStr p.protocol := rfl

theorem rvf_address (p : Profile) :
    (parseVLESSM (toGenericURIM p)).address = p.address := rfl

theorem rvf_port (p : Profile) :
    (parseVLESSM (toGenericURIM p)).port = p.port := rfl

theorem rvf_remarks (p : Profile) :
    (parseVLESSM (toGenericURIM p)).remarks = p.remarks := rfl

theorem rvf_username (p : Profile) :
    (parseVLESSM (toGenericURIM p)).username = "" := rfl

theorem rvf_password (p : Profile) :
    (parseVLESSM (toGenericURIM p)).password = userString (toGenericURIM p).user := rfl

theorem rvf_secretKey (p : Profile) :
    (parseVLESSM (toGenericURIM p)).secretKey = "" := rfl

theorem rvf_obfs (p : Profile) :
    (parseVLESSM (toGenericURIM p)).obfs = "" := rfl

theorem rvf_obfsPassword (p : Profile) :
    (parseVLESSM (toGenericURIM p)).obfsPassword = "" := rfl

theorem rvf_localAddress (p : Profile) :
    (parseVLESSM (toGenericURIM p)).localAddress = "" := rfl

theorem rvf_publicKey (p : Profile) :
    (parseVLESSM (toGenericURIM p)).publicKey = "" := rfl

theorem rvf_seed (p : Profile) :
    (parseVLESSM (toGenericURIM p)).seed = "" := by
  show qSet "" (qget (toGenericURIM p).query "seed") = ""
  rw [reparse_q_seed]
  rfl

theorem rvf_network (p : Profile) :
    (parseVLESSM (toGenericURIM p)).network =
      (if p.network ≠ "" ∧ p.network ≠ "tcp" then p.network else "") := by
  show qSet "" (qget (toGenericURIM p).query "type") = _
  rw [reparse_q_type]
  by_cases h : p.network ≠ "" ∧ p.network ≠ "tcp" <;> simp [qSet, h]

theorem rvf_headerType (p : Profile) :
    (parseVLESSM (toGenericURIM p)).headerType =
      (if p.headerType ≠ "" ∧ p.headerType ≠ "none" then p.headerType else "") := by
  show qSet "" (qget (toGenericURIM p).query "headerType") = _
  rw [reparse_q_headerType]
  by_cases h : p.headerType ≠ "" ∧ p.headerType ≠ "none" <;> simp [qSet, h]

theorem rvf_path (p : Profile) :
    (parseVLESSM (toGenericURIM p)).path = p.path := by
  show qSet "" (qget (toGenericURIM p).query "path") = _
  rw [reparse_q_path]
  by_cases h : p.path = "" <;> simp [qSet, h]

theorem rvf_mode (p : Profile) :
    (parseVLESSM (toGenericURIM p)).mode = p.mode := by
  show qSet "" (qget (toGenericURIM p).query "mode") = _
  rw [reparse_q_mode]
  by_cases h : p.mode = "" <;> simp [qSet, h]

theorem rvf_serviceName (p : Profile) :
    (parseVLESSM (toGenericURIM p)).serviceName = p.serviceName := by
  show qSet "" (qget (toGenericURIM p).query "serviceName") = _
  rw [reparse_q_serviceName]
  by_cases h : p.serviceName = "" <;> simp [qSet, h]

theorem rvf_flow (p : Profile) :
    (parseVLESSM (toGenericURIM p)).flow = p.flow := by
  show qSet "" (qget (toGenericURIM p).query "flow") = _
  rw [reparse_q_flow]
  by_cases h : p.flow = "" <;> simp [qSet, h]

theorem rvf_pbk (p : Profile) :
    (parseVLESSM (toGenericURIM p)).pbk = p.pbk := by
  show qSet "" (qget (toGenericURIM p).query "pbk") = _
  rw [reparse_q_pbk]
  by_cases h : p.pbk = "" <;> simp [qSet, h]

theorem rvf_sid (p : Profile) :
    (parseVLESSM (toGenericURIM p)).sid = p.sid := by
  show qSet "" (qget (toGenericURIM p).query "sid") = _
  rw [reparse_q_sid]
  by_cases h : p.sid = "" <;> simp [qSet, h]

theorem rvf_method (p : Profile) :
    (parseVLESSM (toGenericURIM p)).method =
      (if lowerStr p.protocol = "vless" then "none"
       else if lowerStr p.protocol = "vmess" then "auto" else "") := by
  show (if (parseQueryParam _ _).protocol = "vless" then _ else _) = _
  rw [reparse_q_encryption]
  rfl

theorem roundtrip_generic_vless (p : Profile)
    (hproto : p.protocol = "vless")
    (husername : p.username = "")
    (hsecret : p.secretKey = "")
    (hobfs : p.obfs = "") (hobfsPw : p.obfsPassword = "")
    (hlocal : p.localAddress = "") (hpk : p.publicKey = "")
    (hseed : p.seed = "")
    (hmeth : lowerStr p.method = "none") :
    hashFields (parseVLESSM (toGenericURIM p)) = hashFields p := by
  simp only [hashFields, hashMethod, hashNet, hashHeader, rvf_protocol,
    rvf_address, rvf_port, rvf_username, rvf_password, rvf_secretKey, rvf_obfs,
    rvf_obfsPassword, rvf_localAddress, rvf_publicKey, rvf_seed, rvf_network,
    rvf_headerType, rvf_path, rvf_mode, rvf_serviceName, rvf_flow, rvf_pbk,
    rvf_sid, rvf_method, hproto, husername, hsecret, hobfs, hobfsPw, hlocal,
    hpk, hseed, hmeth, lowerStr_vless, lowerStr_noneLit, List.cons.injEq]
  refine ⟨trivial, trivial, trivial, trivial, userString_toGeneric p husername,
    trivial, by decide, ?_, ?_, trivial⟩
  · by_cases hne : p.network ≠ "" ∧ p.network ≠ "tcp"
    · simp [hne, hne.1]
    · push_neg at hne
      by_cases h0 : p.network = ""
      · simp [h0, lowerStr_empty]
      · have ht : p.network = "tcp" := hne h0
        simp [ht, lowerStr_empty, lowerStr_tcp]
  · by_cases hne : p.headerType ≠ "" ∧ p.headerType ≠ "none"
    · simp [hne, hne.1]
    · push_neg at hne
      by_cases h0 : p.headerType = ""
      · simp [h0, lowerStr_empty]
      · have ht : p.headerType = "none" := hne h0
        simp [ht, lowerStr_empty, lowerStr_noneLit]

theorem roundtrip_generic_trojan (p : Profile)
    (hproto : p.protocol = "trojan")
    (husername : p.username = "")
    (hsecret : p.secretKey = "")
    (hmeth : p.method = "")
    (hobfs : p.obfs = "") (hobfsPw : p.obfsPassword = "")
    (hlocal : p.localAddress = "") (hpk : p.publicKey = "")
    (hseed : p.seed = "") :
    hashFields (parseTrojanM (toGenericURIM p)) = hashFields p := by
  have hbridge : hashFields (parseTrojanM (toGenericURIM p)) =
      hashFields { parseVLESSM (toGenericURIM p) with
        protocol := "trojan",
        network := if (parseVLESSM (toGenericURIM p)).network = "" then "tcp"
          else (parseVLESSM (toGenericURIM p)).network } := rfl
  rw [hbridge]
  simp only [hashFields, hashMethod, hashNet, hashHeader, rvf_protocol,
    rvf_address, rvf_port, rvf_username, rvf_password, rvf_secretKey, rvf_obfs,
    rvf_obfsPassword, rvf_localAddress, rvf_publicKey, rvf_seed, rvf_network,
    rvf_headerType, rvf_path, rvf_mode, rvf_serviceName, rvf_flow, rvf_pbk,
    rvf_sid, rvf_method, hproto, husername, hsecret, hobfs, hobfsPw, hlocal,
    hpk, hseed, hmeth, lowerStr_trojan, lowerStr_empty, List.cons.injEq]
  refine ⟨trivial, trivial, trivial, trivial, userString_toGeneric p husername,
    trivial, by decide, ?_, ?_, trivial⟩
  · by_cases hne : p.network ≠ "" ∧ p.network ≠ "tcp"
    · simp [hne, hne.1]
    · push_neg at hne
      by_cases h0 : p.network = ""
      · simp [h0, lowerStr_empty, lowerStr_tcp]
      · have ht : p.network = "tcp" := hne h0
        simp [ht, lowerStr_empty, lowerStr_tcp]
  · by_cases hne : p.headerType ≠ "" ∧ p.headerType ≠ "none"
    · simp [hne, hne.1]
    · push_neg at hne
      by_cases h0 : p.headerType = ""
      · simp [h0, lowerStr_empty]
      · have ht : p.headerType = "none" := hne h0
        simp [ht, lowerStr_empty, lowerStr_noneLit]

theorem roundtrip_generic_hysteria2 (p : Profile)
    (hproto : p.protocol = "hysteria2")
    (husername : p.username = "")
    (hsecret : p.secretKey = "")
    (hmeth : p.method = "")
    (hobfs : p.obfs = (if p.obfsPassword ≠ "" then "salamander" else ""))
    (hlocal : p.localAddress = "") (hpk : p.publicKey = "")
    (hseed : p.seed = "") :
    hashFields (parseHysteria2M (toGenericURIM p)) = hashFields p := by
  have hbridge : hashFields (parseHysteria2M (toGenericURIM p)) =
      hashFields { parseVLESSM (toGenericURIM p) with
        protocol := "hysteria2",
        obfsPassword := qget (toGenericURIM p).query "obfs-password",
        portHopping := qget (toGenericURIM p).query "mport",
        obfs := if qget (toGenericURIM p).query "obfs-password" ≠ "" then "salamander"
          else (parseVLESSM (toGenericURIM p)).obfs } := rfl
  rw [hbridge]
  simp only [hashFields, hashMethod, hashNet, hashHeader, rvf_protocol,
    rvf_address, rvf_port, rvf_username, rvf_password, rvf_secretKey, rvf_obfs,
    rvf_obfsPassword, rvf_localAddress, rvf_publicKey, rvf_seed, rvf_network,
    rvf_headerType, rvf_path, rvf_mode, rvf_serviceName, rvf_flow, rvf_pbk,
    rvf_sid, rvf_method, reparse_q_obfsPassword, hproto, husername, hsecret,
    hobfs, hlocal, hpk, hseed, hmeth, lowerStr_hysteria2, lowerStr_empty,
    List.cons.injEq]
  refine ⟨trivial, trivial, trivial, trivial, userString_toGeneric p husername,
    trivial, by decide, ?_, ?_, trivial, trivial, trivial, trivial, trivial,
    ?_, ?_, trivial⟩
  · by_cases hne : p.network ≠ "" ∧ p.network ≠ "tcp"
    · simp [hne, hne.1]
    · push_neg at hne
      by_cases h0 : p.network = ""
      · simp [h0, lowerStr_empty]
      · have ht : p.network = "tcp" := hne h0
        simp [ht, lowerStr_empty, lowerStr_tcp]
  · by_cases hne : p.headerType ≠ "" ∧ p.headerType ≠ "none"
    · simp [hne, hne.1]
    · push_neg at hne
      by_cases h0 : p.headerType = ""
      · simp [h0, lowerStr_empty]
      · have ht : p.headerType = "none" := hne h0
        simp [ht, lowerStr_empty, lowerStr_noneLit]
  · by_cases ho : p.obfsPassword = "" <;> simp [ho]
  · by_cases ho : p.obfsPassword = "" <;> simp [ho]

theorem toGenericURIM_host (p : Profile) : (toGenericURIM p).host = p.address := rfl

theorem toGenericURIM_port (p : Profile) : (toGenericURIM p).port = p.port := rfl

theorem toGenericURIM_user (p : Profile) : (toGenericURIM p).user =
    (if p.username ≠ "" then
      some { username := p.username, hasPassword := true, password := p.password }
    else if p.password ≠ "" then some { username := p.password }
    else none) := rfl

theorem roundtrip_generic_socks (p : Profile) (proto : String)
    (hproto : p.protocol = proto)
    (huserpw : p.username = "" → p.password = "")
    (hsecret : p.secretKey = "") (hmeth : p.method = "")
    (hnet : p.network = "") (hheader : p.headerType = "")
    (hpath : p.path = "") (hmode : p.mode = "") (hsn : p.serviceName = "")
    (hseed : p.seed = "") (hflow : p.flow = "") (hpbk : p.pbk = "")
    (hsid : p.sid = "") (hobfs : p.obfs = "") (hobfsPw : p.obfsPassword = "")
    (hlocal : p.localAddress = "") (hpk : p.publicKey = "") :
    hashFields (parseSocksM (toGenericURIM p) proto) = hashFields p := by
  simp only [hashFields, hashMethod, hashNet, hashHeader, parseSocksM, hproto,
    hsecret, hmeth, hnet, hheader, hpath, hmode, hsn, hseed, hflow, hpbk, hsid,
    hobfs, hobfsPw, hlocal, hpk, lowerStr_empty, List.cons.injEq]
  refine ⟨trivial, ?_, ?_, ?_, ?_, trivial⟩
  · rw [toGenericURIM_host]
  · rw [toGenericURIM_port]
  · rw [toGenericURIM_user]
    by_cases hu : p.username = ""
    · simp [hu, huserpw hu]
    · simp [hu]
  · rw [toGenericURIM_user]
    by_cases hu : p.username = ""
    · simp [hu, huserpw hu]
    · simp [hu]

theorem roundtrip_generic_wireguard (p : Profile)
    (hproto : p.protocol = "wireguard")
    (hsecret : p.secretKey = "")
    (husername : p.username = "") (hpw : p.password = "")
    (hmeth : p.method = "")
    (hnet : p.network = "") (hheader : p.headerType = "")
    (hpath : p.path = "") (hmode : p.mode = "") (hsn : p.serviceName = "")
    (hseed : p.seed = "") (hflow : p.flow = "") (hpbk : p.pbk = "")
    (hsid : p.sid = "") (hobfs : p.obfs = "") (hobfsPw : p.obfsPassword = "")
    (hla : p.localAddress ≠ "") :
    hashFields (parseWireGuardM (toGenericURIM p)) = hashFields p := by
  simp only [hashFields, hashMethod, hashNet, hashHeader, parseWireGuardM,
    reparse_q_publickey, reparse_q_address, hproto, hsecret, hmeth, hnet,
    hheader, hpath, hmode, hsn, hseed, hflow, hpbk, hsid, hobfs, hobfsPw,
    lowerStr_empty, List.cons.injEq]
  refine ⟨trivial, ?_, ?_, husername.symm, hpw.symm, ?_, trivial, trivial,
    trivial, trivial, trivial, trivial, trivial, trivial, trivial, trivial,
    trivial, trivial, ?_, by simp, trivial⟩
  · rw [toGenericURIM_host]
  · rw [toGenericURIM_port]
  · rw [userString_toGeneric p husername, hpw]
  · simp [hla]

theorem byteStr_append (a b : String) (ha : ByteStr a) (hb : ByteStr b) :
    ByteStr (a ++ b) := by
  intro c hc
  rw [String.data_append] at hc
  rcases List.mem_append.mp hc with h | h
  · exact ha c h
  · exact hb c h

theorem byteStr_colon : ByteStr ":" := by decide

theorem splitOnFirst_mid (m pw : List Char) (h : ':' ∉ m) :
    List.splitOnFirst ':' (m ++ ':' :: pw) = some (m, pw) := by
  induction m with
  | nil => simp [List.splitOnFirst]
  | cons c rest ih =>
    simp only [List.mem_cons, not_or] at h
    simp only [List.cons_append, List.splitOnFirst]
    rw [if_neg (fun e => h.1 e.symm)]
    simp only [List.append_eq]
    rw [ih h.2]

theorem splitFirstColon_concat (m pw : String) (h : ':' ∉ m.data) :
    splitFirstColon (m ++ ":" ++ pw) = some (m, pw) := by
  have hdata : (m ++ ":" ++ pw).data = m.data ++ ':' :: pw.data := by
    simp [String.data_append]
  rcases m with ⟨md⟩
  rcases pw with ⟨pd⟩
  simp only [splitFirstColon, hdata, splitOnFirst_mid _ _ h]

theorem splitFirstColon_method_no_colon (s m pw : String)
    (h : splitFirstColon s = some (m, pw)) : ':' ∉ m.data := by
  have main : ∀ l a b, List.splitOnFirst ':' l = some (a, b) → ':' ∉ a := by
    intro l
    induction l with
    | nil => intro a b hab; simp [List.splitOnFirst] at hab
    | cons c rest ih =>
      intro a b hab
      simp only [List.splitOnFirst] at hab
      by_cases hc : c = ':'
      · rw [if_pos hc] at hab
        cases hab
        simp
      · rw [if_neg hc] at hab
        cases hrec : List.splitOnFirst ':' rest with
        | none => rw [hrec] at hab; cases hab
        | some pr =>
          rw [hrec] at hab
          cases hab
          simp only [List.mem_cons, not_or]
          exact ⟨fun e => hc e.symm, ih _ _ hrec⟩
  simp only [splitFirstColon] at h
  cases hs : List.splitOnFirst ':' s.data with
  | none => rw [hs] at h; cases h
  | some pr =>
    rw [hs] at h
    cases h
    simpa using main s.data pr.1 pr.2 (by rw [hs])

theorem containsSubAux_nil (l : List Char) : containsSubAux [] l = true := by
  cases l <;> simp [containsSubAux]

theorem containsSubAux_mid (pat pre post : List Char) :
    containsSubAux pat (pre ++ pat ++ post) = true := by
  induction pre with
  | nil =>
    cases pat with
    | nil => simp [containsSubAux_nil]
    | cons c r =>
      simp only [List.nil_append, containsSubAux, List.cons_append,
        Bool.or_eq_true]
      left
      rw [List.isPrefixOf_iff_prefix]
      exact ⟨post, by simp⟩
  | cons c rest ih =>
    simp only [List.cons_append, containsSubAux, Bool.or_eq_true]
    right
    exact ih

theorem ssPlugin_prefix_split :
    "obfs-local;obfs=http;obfs-host=" = "obfs-local;" ++ "obfs=http" ++ ";obfs-host=" := by
  decide

theorem containsSub_ssPlugin (p : Profile) :
    containsSub (ssPluginStr p) "obfs=http" = true := by
  show containsSubAux _ _ = true
  rw [ssPluginStr]
  by_cases hp : p.path = ""
  · simp only [hp, ne_eq, not_true_eq_false, if_false, ssPlugin_prefix_split]
    rw [show ("obfs-local;" ++ "obfs=http" ++ ";obfs-host=" ++ p.host).data =
      "obfs-local;".data ++ "obfs=http".data ++ (";obfs-host=" ++ p.host).data by
        simp [String.data_append]]
    exact containsSubAux_mid _ _ _
  · simp only [ne_eq, hp, not_false_eq_true, if_true, ssPlugin_prefix_split]
    rw [show ("obfs-local;" ++ "obfs=http" ++ ";obfs-host=" ++ p.host ++ ";path=" ++ p.path).data =
      "obfs-local;".data ++ "obfs=http".data ++
        (";obfs-host=" ++ p.host ++ ";path=" ++ p.path).data by
        simp [String.data_append]]
    exact containsSubAux_mid _ _ _

theorem toSSURIM_host (p : Profile) : (toShadowsocksURIM p).host = p.address := rfl

theorem toSSURIM_port (p : Profile) : (toShadowsocksURIM p).port = p.port := rfl

theorem roundtrip_ss (p : Profile)
    (hproto : p.protocol = "shadowsocks")
    (hbm : ByteStr p.method) (hbp : ByteStr p.password)
    (hmc : ':' ∉ p.method.data)
    (hsecret : p.secretKey = "") (husername : p.username = "")
    (hmode : p.mode = "") (hsn : p.serviceName = "") (hseed : p.seed = "")
    (hflow : p.flow = "") (hobfs : p.obfs = "") (hobfsPw : p.obfsPassword = "")
    (hpbk : p.pbk = "") (hsid : p.sid = "") (hlocal : p.localAddress = "")
    (hpk : p.publicKey = "")
    (hcase : (p.headerType = "http" ∧ p.network = "tcp" ∧
        extractCapture "path=" (ssPluginStr p) = p.path) ∨
      (p.headerType = "" ∧ p.network = "" ∧ p.path = "")) :
    (parseShadowsocksM (toShadowsocksURIM p)).map hashFields =
      some (hashFields p) := by
  have hb : ByteStr (p.method ++ ":" ++ p.password) :=
    byteStr_append _ _ (byteStr_append _ _ hbm byteStr_colon) hbp
  have hnc := b64UrlNoPad_no_colon _ hb
  have hdec := decodeBase64_b64UrlNoPad _ hb
  have hsplit := splitFirstColon_concat p.method p.password hmc
  simp only [parseShadowsocksM]
  rw [show userString (toShadowsocksURIM p).user =
    b64UrlNoPad (p.method ++ ":" ++ p.password) from rfl]
  rw [hnc, hdec]
  simp only [Bool.false_eq_true, if_false]
  rw [hsplit]
  rcases hcase with ⟨hht, hnet, hpath⟩ | ⟨hht, hnet, hpath⟩
  · have hq : (toShadowsocksURIM p).query = [("plugin", ssPluginStr p)] := by
      show (if p.headerType = "http" then _ else _) = _
      rw [if_pos hht]
      rfl
    rw [hq]
    rw [show qget [("plugin", ssPluginStr p)] "plugin" = ssPluginStr p from rfl]
    rw [containsSub_ssPlugin]
    simp only [if_true, Option.map_some, Option.some.injEq]
    simp only [hashFields, hashMethod, hashNet, hashHeader, hproto, husername,
      hsecret, hmode, hsn, hseed, hflow, hobfs, hobfsPw, hpbk, hsid, hlocal,
      hpk, hht, hnet, hpath, lowerStr_shadowsocks, lowerStr_empty, lowerStr_tcp,
      List.cons.injEq]
    simp [toSSURIM_host, toSSURIM_port, hashFields, hashMethod, hashNet,
      hashHeader, lowerStr_http, lowerStr_tcp, lowerStr_shadowsocks]
  · have hq : (toShadowsocksURIM p).query = [] := by
      show (if p.headerType = "http" then _ else _) = _
      rw [hht]
      rfl
    rw [hq]
    rw [show qget ([] : List (String × String)) "plugin" = "" from rfl]
    rw [show containsSub "" "obfs=http" = false from by decide]
    simp only [Bool.false_eq_true, if_false, Option.map_some, Option.some.injEq]
    simp only [hashFields, hashMethod, hashNet, hashHeader, hproto, husername,
      hsecret, hmode, hsn, hseed, hflow, hobfs, hobfsPw, hpbk, hsid, hlocal,
      hpk, hht, hnet, hpath, lowerStr_shadowsocks, lowerStr_empty,
      List.cons.injEq]
    simp [toSSURIM_host, toSSURIM_port, hashFields, hashMethod, hashNet,
      hashHeader, lowerStr_empty, lowerStr_shadowsocks]

theorem hashHeader_eq_normHdr (p : Profile) : hashHeader p = normHdr p.headerType := rfl

theorem roundtrip_vmess (p : Profile)
    (hproto : p.protocol = "vmess")
    (husername : p.username = "") (hsecret : p.secretKey = "")
    (hflow : p.flow = "") (hobfs : p.obfs = "") (hobfsPw : p.obfsPassword = "")
    (hpbk : p.pbk = "") (hsid : p.sid = "")
    (hlocal : p.localAddress = "") (hpk : p.publicKey = "")
    (hmeth : p.method ≠ "")
    (hgrpc : p.network = "grpc" →
      normHdr p.headerType = normHdr p.mode ∧ p.path = p.serviceName ∧ p.seed = "")
    (hkcp : p.network = "kcp" → p.path = p.seed ∧ p.mode = "" ∧ p.serviceName = "")
    (hother : p.network ≠ "grpc" → p.network ≠ "kcp" →
      p.seed = "" ∧ p.mode = "" ∧ p.serviceName = "") :
    hashFields (parseVMessLegacyM (vmessJSONof p)) = hashFields p := by
  by_cases hg : p.network = "grpc"
  · obtain ⟨hh, hps, hsd⟩ := hgrpc hg
    simp only [vmessJSONof, parseVMessLegacyM, hg, if_pos, if_true]
    simp only [hashFields, hashMethod, hashNet, hashHeader_eq_normHdr,
      jsonPortToInt, hproto, husername, hsecret, hflow, hobfs, hobfsPw, hpbk,
      hsid, hlocal, hpk, hsd, hps, hmeth, hh, lowerStr_vmess, List.cons.injEq]
    simp [hmeth, hg]
  · by_cases hk : p.network = "kcp"
    · obtain ⟨hps, hmd, hsn⟩ := hkcp hk
      simp only [vmessJSONof, parseVMessLegacyM, hk, hg]
      simp only [hashFields, hashMethod, hashNet, hashHeader_eq_normHdr,
        jsonPortToInt, hproto, husername, hsecret, hflow, hobfs, hobfsPw, hpbk,
        hsid, hlocal, hpk, hps, hmd, hsn, hmeth, lowerStr_vmess,
        List.cons.injEq]
      simp [hmeth, hk]
    · obtain ⟨hsd, hmd, hsn⟩ := hother hg hk
      simp only [vmessJSONof, parseVMessLegacyM, if_neg hg, if_neg hk]
      simp only [hashFields, hashMethod, hashNet, hashHeader_eq_normHdr,
        jsonPortToInt, hproto, husername, hsecret, hflow, hobfs, hobfsPw, hpbk,
        hsid, hlocal, hpk, hsd, hmd, hsn, hmeth, lowerStr_vmess,
        List.cons.injEq]
      simp [hmeth, hg, hk]

/-! ## Structural facts about parser outputs -/

theorem parseVLESSM_struct (parts : URLParts) :
    (parseVLESSM parts).username = "" ∧ (parseVLESSM parts).secretKey = "" ∧
    (parseVLESSM parts).obfs = "" ∧ (parseVLESSM parts).obfsPassword = "" ∧
    (parseVLESSM parts).localAddress = "" ∧ (parseVLESSM parts).publicKey = "" ∧
    (parseVLESSM parts).protocol = lowerStr parts.scheme :=
  ⟨rfl, rfl, rfl, rfl, rfl, rfl, rfl⟩

theorem parseVLESSM_method_other (parts : URLParts)
    (h1 : lowerStr parts.scheme ≠ "vless") (h2 : lowerStr parts.scheme ≠ "vmess") :
    (parseVLESSM parts).method = "" := by
  show (if lowerStr parts.scheme = "vless" then _
    else if lowerStr parts.scheme = "vmess" then "auto" else _) = ""
  rw [if_neg h1, if_neg h2]
  rfl

theorem parseVLESSM_method_vmess (parts : URLParts)
    (h1 : lowerStr parts.scheme = "vmess") :
    (parseVLESSM parts).method = "auto" := by
  show (if lowerStr parts.scheme = "vless" then _
    else if lowerStr parts.scheme = "vmess" then "auto" else _) = "auto"
  rw [h1, if_neg (by decide), if_pos rfl]

theorem parseTrojanM_struct (parts : URLParts) :
    (parseTrojanM parts).username = "" ∧ (parseTrojanM parts).secretKey = "" ∧
    (parseTrojanM parts).obfs = "" ∧ (parseTrojanM parts).obfsPassword = "" ∧
    (parseTrojanM parts).localAddress = "" ∧ (parseTrojanM parts).publicKey = "" ∧
    (parseTrojanM parts).protocol = "trojan" ∧
    (parseTrojanM parts).seed = (parseVLESSM parts).seed ∧
    (parseTrojanM parts).method = (parseVLESSM parts).method :=
  ⟨rfl, rfl, rfl, rfl, rfl, rfl, rfl, rfl, rfl⟩

theorem parseHysteria2M_struct (parts : URLParts) :
    (parseHysteria2M parts).username = "" ∧
    (parseHysteria2M parts).secretKey = "" ∧
    (parseHysteria2M parts).localAddress = "" ∧
    (parseHysteria2M parts).publicKey = "" ∧
    (parseHysteria2M parts).protocol = "hysteria2" ∧
    (parseHysteria2M parts).seed = (parseVLESSM parts).seed ∧
    (parseHysteria2M parts).method = (parseVLESSM parts).method ∧
    (parseHysteria2M parts).obfs =
      (if (parseHysteria2M parts).obfsPassword ≠ "" then "salamander" else "") :=
  ⟨rfl, rfl, rfl, rfl, rfl, rfl, rfl, rfl⟩

theorem parseWireGuardM_localAddress_ne (parts : URLParts) :
    (parseWireGuardM parts).localAddress ≠ "" := by
  show (if qget parts.query "address" = "" then "172.16.0.2/32"
    else qget parts.query "address") ≠ ""
  by_cases h : qget parts.query "address" = "" <;> simp [h]

theorem parseVMessLegacyM_method_ne (v : VmessJSON) :
    (parseVMessLegacyM v).method ≠ "" := by
  show (if v.scy = "" then "auto" else v.scy) ≠ ""
  by_cases h : v.scy = "" <;> simp [h]

theorem lowerStr_ss : lowerStr "ss" = "ss" := by decide

theorem parseVMessLegacyM_net_facts (v : VmessJSON) :
    ((parseVMessLegacyM v).network = "grpc" →
      normHdr (parseVMessLegacyM v).headerType = normHdr (parseVMessLegacyM v).mode ∧
      (parseVMessLegacyM v).path = (parseVMessLegacyM v).serviceName ∧
      (parseVMessLegacyM v).seed = "") ∧
    ((parseVMessLegacyM v).network = "kcp" →
      (parseVMessLegacyM v).path = (parseVMessLegacyM v).seed ∧
      (parseVMessLegacyM v).mode = "" ∧ (parseVMessLegacyM v).serviceName = "") ∧
    ((parseVMessLegacyM v).network ≠ "grpc" → (parseVMessLegacyM v).network ≠ "kcp" →
      (parseVMessLegacyM v).seed = "" ∧ (parseVMessLegacyM v).mode = "" ∧
      (parseVMessLegacyM v).serviceName = "") := by
  refine ⟨fun hg => ?_, fun hk => ?_, fun hg hk => ?_⟩
  · have hv : v.net = "grpc" := hg
    refine ⟨?_, ?_, ?_⟩
    · show normHdr v.typ = normHdr (if v.net = "grpc" then v.typ else "")
      rw [if_pos hv]
    · show v.path = (if v.net = "grpc" then v.path else "")
      rw [if_pos hv]
    · show (if v.net = "kcp" then v.path else "") = ""
      rw [hv, if_neg (by decide)]
  · have hv : v.net = "kcp" := hk
    refine ⟨?_, ?_, ?_⟩
    · show v.path = (if v.net = "kcp" then v.path else "")
      rw [if_pos hv]
    · show (if v.net = "grpc" then v.typ else "") = ""
      rw [hv, if_neg (by decide)]
    · show (if v.net = "grpc" then v.path else "") = ""
      rw [hv, if_neg (by decide)]
  · have hvg : v.net ≠ "grpc" := hg
    have hvk : v.net ≠ "kcp" := hk
    refine ⟨?_, ?_, ?_⟩
    · show (if v.net = "kcp" then v.path else "") = ""
      rw [if_neg hvk]
    · show (if v.net = "grpc" then v.typ else "") = ""
      rw [if_neg hvg]
    · show (if v.net = "grpc" then v.path else "") = ""
      rw [if_neg hvg]

theorem rt_hashSig_of_hashFields (o : Option Profile) (p : Profile)
    (h : o.map hashFields = some (hashFields p)) :
    o.map hashSig = some (hashSig p) := by
  cases o with
  | none => simp at h
  | some q =>
    rw [Option.map_some'] at h ⊢
    rw [Option.some.injEq] at h ⊢
    show sigJoin (hashFields q) = sigJoin (hashFields p)
    rw [h]

theorem rt_vless (parts : URLParts) (hs : lowerStr parts.scheme = "vless")
    (hsafe : RTSafe (parseVLESSM parts)) :
    (parseM (toURIM (parseVLESSM parts))).map hashSig =
      some (hashSig (parseVLESSM parts)) := by
  obtain ⟨husername, hsecret, hobfs, hobfsPw, hlocal, hpk, hpr⟩ :=
    parseVLESSM_struct parts
  have hproto : (parseVLESSM parts).protocol = "vless" := hpr.trans hs
  unfold RTSafe at hsafe
  rw [if_pos hproto] at hsafe
  obtain ⟨hseed, hmeth⟩ := hsafe
  have ht : toURIM (parseVLESSM parts) =
      .generic (toGenericURIM (parseVLESSM parts)) := by
    unfold toURIM
    rw [if_neg (by rw [hproto]; decide), if_neg (by rw [hproto]; decide)]
  have hsch : lowerStr (toGenericURIM (parseVLESSM parts)).scheme = "vless" := by
    show lowerStr (parseVLESSM parts).protocol = "vless"
    rw [hproto]
    exact lowerStr_vless
  rw [ht]
  have hpm : parseM (.generic (toGenericURIM (parseVLESSM parts))) =
      some (parseVLESSM (toGenericURIM (parseVLESSM parts))) := by
    simp [parseM, hsch]
  rw [hpm]
  apply rt_hashSig_of_hashFields
  rw [Option.map_some', Option.some.injEq]
  exact roundtrip_generic_vless _ hproto husername hsecret hobfs hobfsPw hlocal
    hpk hseed hmeth

theorem rt_trojan (parts : URLParts) (hs : lowerStr parts.scheme = "trojan")
    (hsafe : RTSafe (parseTrojanM parts)) :
    (parseM (toURIM (parseTrojanM parts))).map hashSig =
      some (hashSig (parseTrojanM parts)) := by
  obtain ⟨husername, hsecret, hobfs, hobfsPw, hlocal, hpk, hproto, -, hmeq⟩ :=
    parseTrojanM_struct parts
  have hmeth : (parseTrojanM parts).method = "" := by
    rw [hmeq]
    exact parseVLESSM_method_other parts (by rw [hs]; decide) (by rw [hs]; decide)
  unfold RTSafe at hsafe
  rw [if_neg (by rw [hproto]; decide), if_pos (Or.inl hproto)] at hsafe
  have ht : toURIM (parseTrojanM parts) =
      .generic (toGenericURIM (parseTrojanM parts)) := by
    unfold toURIM
    rw [if_neg (by rw [hproto]; decide), if_neg (by rw [hproto]; decide)]
  have hsch : lowerStr (toGenericURIM (parseTrojanM parts)).scheme = "trojan" := by
    show lowerStr (parseTrojanM parts).protocol = "trojan"
    rw [hproto]
    exact lowerStr_trojan
  rw [ht]
  have hpm : parseM (.generic (toGenericURIM (parseTrojanM parts))) =
      some (parseTrojanM (toGenericURIM (parseTrojanM parts))) := by
    simp [parseM, hsch]
  rw [hpm]
  apply rt_hashSig_of_hashFields
  rw [Option.map_some', Option.some.injEq]
  exact roundtrip_generic_trojan _ hproto husername hsecret hmeth hobfs hobfsPw
    hlocal hpk hsafe

theorem rt_hysteria2 (parts : URLParts)
    (hs : lowerStr parts.scheme = "hysteria2" ∨ lowerStr parts.scheme = "hy2")
    (hsafe : RTSafe (parseHysteria2M parts)) :
    (parseM (toURIM (parseHysteria2M parts))).map hashSig =
      some (hashSig (parseHysteria2M parts)) := by
  obtain ⟨husername, hsecret, hlocal, hpk, hproto, -, hmeq, hobfs⟩ :=
    parseHysteria2M_struct parts
  have hmeth : (parseHysteria2M parts).method = "" := by
    rw [hmeq]
    refine parseVLESSM_method_other parts ?_ ?_ <;>
      rcases hs with h | h <;> rw [h] <;> decide
  unfold RTSafe at hsafe
  rw [if_neg (by rw [hproto]; decide), if_pos (Or.inr hproto)] at hsafe
  have ht : toURIM (parseHysteria2M parts) =
      .generic (toGenericURIM (parseHysteria2M parts)) := by
    unfold toURIM
    rw [if_neg (by rw [hproto]; decide), if_neg (by rw [hproto]; decide)]
  have hsch : lowerStr (toGenericURIM (parseHysteria2M parts)).scheme =
      "hysteria2" := by
    show lowerStr (parseHysteria2M parts).protocol = "hysteria2"
    rw [hproto]
    exact lowerStr_hysteria2
  rw [ht]
  have hpm : parseM (.generic (toGenericURIM (parseHysteria2M parts))) =
      some (parseHysteria2M (toGenericURIM (parseHysteria2M parts))) := by
    simp [parseM, hsch]
  rw [hpm]
  apply rt_hashSig_of_hashFields
  rw [Option.map_some', Option.some.injEq]
  exact roundtrip_generic_hysteria2 _ hproto husername hsecret hmeth hobfs
    hlocal hpk hsafe

theorem rt_socks (parts : URLParts) :
    RTSafe (parseSocksM parts "socks") →
    (parseM (toURIM (parseSocksM parts "socks"))).map hashSig =
      some (hashSig (parseSocksM parts "socks")) := by
  intro hsafe
  have hproto : (parseSocksM parts "socks").protocol = "socks" := rfl
  unfold RTSafe at hsafe
  rw [if_neg (by rw [hproto]; decide), if_neg (by rw [hproto]; decide),
    if_pos (Or.inl hproto)] at hsafe
  have ht : toURIM (parseSocksM parts "socks") =
      .generic (toGenericURIM (parseSocksM parts "socks")) := by
    unfold toURIM
    rw [if_neg (by rw [hproto]; decide), if_neg (by rw [hproto]; decide)]
  have hsch : lowerStr (toGenericURIM (parseSocksM parts "socks")).scheme =
      "socks" := by
    show lowerStr (parseSocksM parts "socks").protocol = "socks"
    rw [hproto]
    exact lowerStr_socks
  rw [ht]
  have hpm : parseM (.generic (toGenericURIM (parseSocksM parts "socks"))) =
      some (parseSocksM (toGenericURIM (parseSocksM parts "socks")) "socks") := by
    simp [parseM, hsch]
  rw [hpm]
  apply rt_hashSig_of_hashFields
  rw [Option.map_some', Option.some.injEq]
  exact roundtrip_generic_socks _ _ hproto hsafe rfl rfl rfl rfl rfl rfl rfl
    rfl rfl rfl rfl rfl rfl rfl rfl

theorem rt_http (parts : URLParts) :
    RTSafe (parseSocksM parts "http") →
    (parseM (toURIM (parseSocksM parts "http"))).map hashSig =
      some (hashSig (parseSocksM parts "http")) := by
  intro hsafe
  have hproto : (parseSocksM parts "http").protocol = "http" := rfl
  unfold RTSafe at hsafe
  rw [if_neg (by rw [hproto]; decide), if_neg (by rw [hproto]; decide),
    if_pos (Or.inr hproto)] at hsafe
  have ht : toURIM (parseSocksM parts "http") =
      .generic (toGenericURIM (parseSocksM parts "http")) := by
    unfold toURIM
    rw [if_neg (by rw [hproto]; decide), if_neg (by rw [hproto]; decide)]
  have hsch : lowerStr (toGenericURIM (parseSocksM parts "http")).scheme =
      "http" := by
    show lowerStr (parseSocksM parts "http").protocol = "http"
    rw [hproto]
    exact lowerStr_http
  rw [ht]
  have hpm : parseM (.generic (toGenericURIM (parseSocksM parts "http"))) =
      some (parseSocksM (toGenericURIM (parseSocksM parts "http")) "http") := by
    simp [parseM, hsch]
  rw [hpm]
  apply rt_hashSig_of_hashFields
  rw [Option.map_some', Option.some.injEq]
  exact roundtrip_generic_socks _ _ hproto hsafe rfl rfl rfl rfl rfl rfl rfl
    rfl rfl rfl rfl rfl rfl rfl rfl

theorem rt_wireguard (parts : URLParts)
    (hsafe : RTSafe (parseWireGuardM parts)) :
    (parseM (toURIM (parseWireGuardM parts))).map hashSig =
      some (hashSig (parseWireGuardM parts)) := by
  have hproto : (parseWireGuardM parts).protocol = "wireguard" := rfl
  unfold RTSafe at hsafe
  rw [if_neg (by rw [hproto]; decide), if_neg (by rw [hproto]; decide),
    if_neg (by rw [hproto]; decide), if_pos hproto] at hsafe
  have ht : toURIM (parseWireGuardM parts) =
      .generic (toGenericURIM (parseWireGuardM parts)) := by
    unfold toURIM
    rw [if_neg (by rw [hproto]; decide), if_neg (by rw [hproto]; decide)]
  have hsch : lowerStr (toGenericURIM (parseWireGuardM parts)).scheme =
      "wireguard" := by
    show lowerStr (parseWireGuardM parts).protocol = "wireguard"
    rw [hproto]
    exact lowerStr_wireguard
  rw [ht]
  have hpm : parseM (.generic (toGenericURIM (parseWireGuardM parts))) =
      some (parseWireGuardM (toGenericURIM (parseWireGuardM parts))) := by
    simp [parseM, hsch]
  rw [hpm]
  apply rt_hashSig_of_hashFields
  rw [Option.map_some', Option.some.injEq]
  exact roundtrip_generic_wireguard _ hproto hsafe rfl rfl rfl rfl rfl rfl
    rfl rfl rfl rfl rfl rfl rfl rfl (parseWireGuardM_localAddress_ne parts)

theorem rt_ss (parts : URLParts) (p : Profile)
    (hparse : parseShadowsocksM parts = some p) (hsafe : RTSafe p) :
    (parseM (toURIM p)).map hashSig = some (hashSig p) := by
  have hmain : ∀ q : Profile, q.protocol = "shadowsocks" →
      (':' ∉ q.method.data) →
      ((q.headerType = "http" ∧ q.network = "tcp") ∨
        (q.headerType = "" ∧ q.network = "" ∧ q.path = "")) →
      q.secretKey = "" → q.username = "" → q.mode = "" → q.serviceName = "" →
      q.seed = "" → q.flow = "" → q.obfs = "" → q.obfsPassword = "" →
      q.pbk = "" → q.sid = "" → q.localAddress = "" → q.publicKey = "" →
      RTSafe q →
      (parseM (toURIM q)).map hashSig = some (hashSig q) := by
    intro q hproto hmc hcase0 hsecret husername hmode hsn hseed hflow hobfs
      hobfsPw hpbk hsid hlocal hpk hsq
    unfold RTSafe at hsq
    rw [if_neg (by rw [hproto]; decide), if_neg (by rw [hproto]; decide),
      if_neg (by rw [hproto]; decide), if_neg (by rw [hproto]; decide),
      if_pos hproto] at hsq
    obtain ⟨hbm, hbp, hpath⟩ := hsq
    have hcase : (q.headerType = "http" ∧ q.network = "tcp" ∧
        extractCapture "path=" (ssPluginStr q) = q.path) ∨
        (q.headerType = "" ∧ q.network = "" ∧ q.path = "") := by
      rcases hcase0 with ⟨h1, h2⟩ | h
      · exact Or.inl ⟨h1, h2, hpath h1⟩
      · exact Or.inr h
    have ht : toURIM q = .generic (toShadowsocksURIM q) := by
      unfold toURIM
      rw [if_neg (by rw [hproto]; decide), if_pos hproto]
    have hsch : lowerStr (toShadowsocksURIM q).scheme = "ss" := lowerStr_ss
    rw [ht]
    have hpm : parseM (.generic (toShadowsocksURIM q)) =
        parseShadowsocksM (toShadowsocksURIM q) := by
      simp [parseM, hsch]
    rw [hpm]
    apply rt_hashSig_of_hashFields
    exact roundtrip_ss q hproto hbm hbp hmc hsecret husername hmode hsn hseed
      hflow hobfs hobfsPw hpbk hsid hlocal hpk hcase
  simp only [parseShadowsocksM] at hparse
  split at hparse
  case h_1 x m pw heq =>
    have hmc := splitFirstColon_method_no_colon _ m pw heq
    by_cases hc : containsSub (qget parts.query "plugin") "obfs=http"
    · rw [if_pos hc, Option.some.injEq] at hparse
      subst hparse
      exact hmain _ rfl hmc (Or.inl ⟨rfl, rfl⟩) rfl rfl rfl rfl rfl rfl rfl
        rfl rfl rfl rfl rfl hsafe
    · rw [if_neg hc, Option.some.injEq] at hparse
      subst hparse
      exact hmain _ rfl hmc (Or.inr ⟨rfl, rfl, rfl⟩) rfl rfl rfl rfl rfl rfl
        rfl rfl rfl rfl rfl rfl hsafe
  case h_2 x heq => exact absurd hparse (by simp)

theorem rt_vmess_generic (parts : URLParts)
    (hs : lowerStr parts.scheme = "vmess")
    (hsafe : RTSafe (parseVLESSM parts)) :
    (parseM (toURIM (parseVLESSM parts))).map hashSig =
      some (hashSig (parseVLESSM parts)) := by
  obtain ⟨husername, hsecret, hobfs, hobfsPw, hlocal, hpk, hpr⟩ :=
    parseVLESSM_struct parts
  have hproto : (parseVLESSM parts).protocol = "vmess" := hpr.trans hs
  unfold RTSafe at hsafe
  rw [if_neg (by rw [hproto]; decide), if_neg (by rw [hproto]; decide),
    if_neg (by rw [hproto]; decide), if_neg (by rw [hproto]; decide),
    if_neg (by rw [hproto]; decide), if_pos hproto] at hsafe
  obtain ⟨hflow, hpbk, hsid, hgrpc, hkcp, hother⟩ := hsafe
  have hmeth : (parseVLESSM parts).method ≠ "" := by
    rw [parseVLESSM_method_vmess parts hs]
    decide
  have ht : toURIM (parseVLESSM parts) =
      .vmessLegacy (vmessJSONof (parseVLESSM parts)) := by
    unfold toURIM
    rw [if_pos hproto]
  rw [ht]
  have hpm : parseM (.vmessLegacy (vmessJSONof (parseVLESSM parts))) =
      some (parseVMessLegacyM (vmessJSONof (parseVLESSM parts))) := rfl
  rw [hpm]
  apply rt_hashSig_of_hashFields
  rw [Option.map_some', Option.some.injEq]
  exact roundtrip_vmess _ hproto husername hsecret hflow hobfs hobfsPw hpbk
    hsid hlocal hpk hmeth hgrpc hkcp hother

theorem rt_vmess_legacy (v : VmessJSON) :
    (parseM (toURIM (parseVMessLegacyM v))).map hashSig =
      some (hashSig (parseVMessLegacyM v)) := by
  obtain ⟨hgrpc, hkcp, hother⟩ := parseVMessLegacyM_net_facts v
  have hproto : (parseVMessLegacyM v).protocol = "vmess" := rfl
  have ht : toURIM (parseVMessLegacyM v) =
      .vmessLegacy (vmessJSONof (parseVMessLegacyM v)) := by
    unfold toURIM
    rw [if_pos hproto]
  rw [ht]
  have hpm : parseM (.vmessLegacy (vmessJSONof (parseVMessLegacyM v))) =
      some (parseVMessLegacyM (vmessJSONof (parseVMessLegacyM v))) := rfl
  rw [hpm]
  apply rt_hashSig_of_hashFields
  rw [Option.map_some', Option.some.injEq]
  exact roundtrip_vmess _ rfl rfl rfl rfl rfl rfl rfl rfl rfl rfl
    (parseVMessLegacyM_method_ne v) hgrpc hkcp hother

/-- C1, amended: for every URI `u` that `Parse` accepts with result `p`,
if `p` is round-trip safe (`RTSafe`: no field that the serializer of its
dialect drops is populated -- WireGuard secret key, VLESS/Trojan/Hysteria2
kcp seed, non-`none` VLESS encryption, SOCKS password without username,
non-byte Shadowsocks credentials, VMess reality/flow extras), then
re-parsing the serialized profile reproduces the `CalculateHash`
signature exactly. -/
theorem fingerprint_roundtrip_amended (u : URI) (p : Profile)
    (hparse : parseM u = some p) (hsafe : RTSafe p) :
    (parseM (toURIM p)).map hashSig = some (hashSig p) := by
  cases u with
  | vmessLegacy v =>
    rw [show parseM (.vmessLegacy v) = some (parseVMessLegacyM v) from rfl,
      Option.some.injEq] at hparse
    subst hparse
    exact rt_vmess_legacy v
  | generic parts =>
    simp only [parseM] at hparse
    by_cases h1 : lowerStr parts.scheme = "vmess"
    · rw [if_pos h1] at hparse
      by_cases h1q : 2 ≤ parts.query.length
      · rw [if_pos h1q, Option.some.injEq] at hparse
        subst hparse
        exact rt_vmess_generic parts h1 hsafe
      · rw [if_neg h1q] at hparse
        exact absurd hparse (by simp)
    rw [if_neg h1] at hparse
    by_cases h2 : lowerStr parts.scheme = "vless"
    · rw [if_pos h2, Option.some.injEq] at hparse
      subst hparse
      exact rt_vless parts h2 hsafe
    rw [if_neg h2] at hparse
    by_cases h3 : lowerStr parts.scheme = "trojan"
    · rw [if_pos h3, Option.some.injEq] at hparse
      subst hparse
      exact rt_trojan parts h3 hsafe
    rw [if_neg h3] at hparse
    by_cases h4 : lowerStr parts.scheme = "ss" ∨ lowerStr parts.scheme = "shadowsocks"
    · rw [if_pos h4] at hparse
      exact rt_ss parts p hparse hsafe
    rw [if_neg h4] at hparse
    by_cases h5 : lowerStr parts.scheme = "socks" ∨ lowerStr parts.scheme = "socks5"
    · rw [if_pos h5, Option.some.injEq] at hparse
      subst hparse
      exact rt_socks parts hsafe
    rw [if_neg h5] at hparse
    by_cases h6 : lowerStr parts.scheme = "http" ∨ lowerStr parts.scheme = "https"
    · rw [if_pos h6, Option.some.injEq] at hparse
      subst hparse
      exact rt_http parts hsafe
    rw [if_neg h6] at hparse
    by_cases h7 : lowerStr parts.scheme = "wireguard"
    · rw [if_pos h7, Option.some.injEq] at hparse
      subst hparse
      exact rt_wireguard parts hsafe
    rw [if_neg h7] at hparse
    by_cases h8 : lowerStr parts.scheme = "hysteria2" ∨ lowerStr parts.scheme = "hy2"
    · rw [if_pos h8, Option.some.injEq] at hparse
      subst hparse
      exact rt_hysteria2 parts h8 hsafe
    rw [if_neg h8] at hparse
    exact absurd hparse (by simp)

/-- C1, counterexample: the WireGuard dialect loses the secret key on
re-serialization (`toGenericURI` emits no userinfo for WireGuard), so a
parseable `wireguard://` URI with a private key changes its fingerprint
after one round trip.  This refutes the unconditional claim. -/
theorem fingerprint_roundtrip_counterexample :
    parseM (.generic wgCexParts) = some (parseWireGuardM wgCexParts) ∧
    (parseM (toURIM (parseWireGuardM wgCexParts))).map hashSig ≠
      some (hashSig (parseWireGuardM wgCexParts)) := by
  constructor
  · rfl
  · decide

theorem fingerprint_roundtrip_witness :
    parseM (.generic trojanWitParts) = some (parseTrojanM trojanWitParts) ∧
    (parseM (toURIM (parseTrojanM trojanWitParts))).map hashSig =
      some (hashSig (parseTrojanM trojanWitParts)) :=
  ⟨rfl, fingerprint_roundtrip_amended (.generic trojanWitParts)
    (parseTrojanM trojanWitParts) rfl (by decide)⟩

/-! ## C6: baseline failure fallback -/

/-- C6, counterexample: the fallback environment the test command
installs when `Detect` fails does not use observer ISP `"unknown"` -- it
uses the literal `"ip-api error, not detected(...)"` string. -/
theorem baseline_fallback_counterexample :
    detectEnv none true none = none ∧
    testCmdEnv none none ≠ ⟨"unknown", 1⟩ := by decide

/-- C6, amended: when the baseline probe fails the engine continues
instead of aborting, with baseline 1.0 Mbps -- but the fallback observer
ISP is the test command fallback string, not `"unknown"`. -/
theorem baseline_fallback_amended (a : Option GeoMeta) (s : Option ℚ)
    (h : detectEnv a true s = none) :
    testCmdEnv a s = ⟨testCmdFallbackISP, 1⟩ := by
  unfold testCmdEnv
  rw [h]

theorem baseline_fallback_witness :
    testCmdEnv none none = ⟨testCmdFallbackISP, 1⟩ :=
  baseline_fallback_amended none none rfl

/-- C8, counterexample: a trace with 1 s of time-to-first-byte, 1 s of
body streaming and 2 MB written yields 8 Mbps from the code but 16 Mbps
under the spec timing that excludes TTFB. -/
theorem speed_timing_counterexample :
    (speedCheck ttfbTrace).mbps = 8 ∧ speedSpecMbps ttfbTrace = 16 := by
  constructor <;> norm_num [speedCheck, speedSpecMbps, ttfbTrace]

/-- C8, amended: `SpeedCheck` computes `mbps = bytes * 8 / duration /
10^6` with `duration` counted from before the request is issued, so the
time-to-first-byte is included in the throughput denominator, not
excluded. -/
theorem speed_timing_amended (tr : SpeedTrace)
    (hconn : tr.connectErr = false) (hstatus : tr.statusCode = 200)
    (hdur : tr.ttfb + tr.bodyTime ≠ 0) :
    (speedCheck tr).mbps = (tr.written : ℚ) * 8 / (tr.ttfb + tr.bodyTime) / 1000000 ∧
    (speedCheck tr).bytes = tr.written := by
  unfold speedCheck
  rw [hconn, hstatus]
  by_cases hc : tr.copyErrNonEOF <;> simp [hdur, hc]

theorem speed_timing_witness :
    (speedCheck ttfbTrace).mbps =
      (ttfbTrace.written : ℚ) * 8 / (ttfbTrace.ttfb + ttfbTrace.bodyTime) / 1000000 ∧
    (speedCheck ttfbTrace).bytes = ttfbTrace.written :=
  speed_timing_amended ttfbTrace rfl rfl (by norm_num [ttfbTrace])

/-! ## C9: vmess dispatch -/

/-- C9, counterexample: a `vmess://` URI containing `?` (one query
parameter) but no `&` is decoded as legacy base64-of-JSON, not parsed as
a generic URI. -/
theorem vmess_dispatch_counterexample :
    goContainsChar "vmess://abc?aid=0" '?' = true ∧
    parseVMessForm "vmess://abc?aid=0" = .legacy := by decide

/-- C9, amended: a raw `vmess://` link with no `?` takes the legacy
base64-of-JSON path, and the generic URI path is taken exactly when the
link contains both `?` and `&` -- a URI with a single query parameter
still goes to the legacy decoder. -/
theorem vmess_dispatch_amended (raw : String) :
    (goContainsChar raw '?' = false → parseVMessForm raw = .legacy) ∧
    (goContainsChar raw '?' = true → goContainsChar raw '&' = true →
      parseVMessForm raw = .generic) := by
  constructor
  · intro h
    unfold parseVMessForm
    rw [h]
    rfl
  · intro h1 h2
    unfold parseVMessForm
    rw [h1, h2]
    rfl

theorem vmess_dispatch_witness :
    parseVMessForm "vmess://abc" = .legacy ∧
    parseVMessForm "vmess://a?b=1&c=2" = .generic :=
  ⟨(vmess_dispatch_amended "vmess://abc").1 (by decide),
   (vmess_dispatch_amended "vmess://a?b=1&c=2").2 (by decide) (by decide)⟩

/-- C7, counterexample: with 10 candidates, 4.3 of 10 MB used, the code
truncates `10 * 0.57 = 5.7` to 5 where the spec rounds to 6. -/
theorem range_size_counterexample :
    rangeSizeGo 10 (43 / 10) 10 = 5 ∧ rangeSizeSpec 10 (43 / 10) 10 = 6 := by
  constructor
  · show (let r := goTruncQ ((10 : ℚ) * (1 - (43 / 10) / 10));
      if r < 1 then 1 else if ((10 : ℕ) : ℤ) < r then ((10 : ℕ) : ℤ) else r) = 5
    norm_num [goTruncQ]
  · norm_num [rangeSizeSpec, round_eq]

/-- C7, amended: within the budget (`0 ≤ data_used ≤ B`, `B > 0`) the
sampling window is `max 1 (floor (candidates * temperature))` -- Go's
`int(...)` conversion truncates, it does not round to nearest. -/
theorem range_size_amended (n : ℕ) (du limit : ℚ)
    (h0 : 0 ≤ du) (h1 : du ≤ limit) (h2 : 0 < limit) :
    rangeSizeGo n du limit = max 1 ⌊(n : ℚ) * (1 - du / limit)⌋ := by
  have hd1 : du / limit ≤ 1 := (div_le_one h2).mpr h1
  have hd0 : 0 ≤ du / limit := div_nonneg h0 h2.le
  have hnt0 : 0 ≤ (n : ℚ) * (1 - du / limit) :=
    mul_nonneg (Nat.cast_nonneg n) (by linarith)
  have hntn : (n : ℚ) * (1 - du / limit) ≤ (n : ℚ) := by
    nlinarith [Nat.cast_nonneg (α := ℚ) n]
  have hfl : ⌊(n : ℚ) * (1 - du / limit)⌋ ≤ (n : ℤ) := by
    have h := Int.floor_mono hntn
    rwa [Int.floor_natCast] at h
  simp only [rangeSizeGo, goTruncQ, if_pos hnt0]
  split_ifs <;> omega

theorem range_size_witness :
    rangeSizeGo 10 (43 / 10) 10 = max 1 ⌊((10 : ℕ) : ℚ) * (1 - (43 / 10) / 10)⌋ :=
  range_size_amended 10 (43 / 10) 10 (by norm_num) (by norm_num) (by norm_num)

/-! ## C5: predictive score -/

theorem findPerf_key (db : List PerfRecord) (id : ℕ) (isp : String)
    (r : PerfRecord) (h : findPerf db id isp = some r) :
    r.proxyId = id ∧ r.userISP = isp := by
  have hp := List.find?_some h
  rw [Bool.and_eq_true, beq_iff_eq, beq_iff_eq] at hp
  exact hp

/-- C5: `GetPredictiveScore` returns the stored score when a record
exists for `(proxy, observer ISP)`; otherwise it returns 0.8 times the
mean score of the same proxy over the other observer ISPs when that mean
is positive, and the cold-start constant 0.2 otherwise. -/
theorem predictive_score_spec (db : List PerfRecord) (id : ℕ) (isp : String)
    (hid : id ≠ 0) :
    (∀ r, findPerf db id isp = some r → getPredictiveScore db id isp = r.score) ∧
    (findPerf db id isp = none →
      getPredictiveScore db id isp =
        (let others := db.filter (fun r => r.proxyId == id && r.userISP != isp)
         let avg : ℚ := if others.isEmpty then 0
           else (others.map (fun r => r.score)).sum / others.length
         if 0 < avg then avg * (8 / 10) else 2 / 10)) := by
  constructor
  · intro r h
    have hkey := (findPerf_key db id isp r h).1
    simp only [getPredictiveScore, h]
    rw [if_neg (hkey ▸ hid)]
  · intro h
    simp only [getPredictiveScore, h]

theorem predictive_score_witness :
    getPredictiveScore [⟨1, "a", 3, 4⟩] 1 "a" = (3 : ℚ) :=
  (predictive_score_spec [⟨1, "a", 3, 4⟩] 1 "a" (by decide)).1 ⟨1, "a", 3, 4⟩ rfl

/-! ## C4: exact failure decay -/

theorem findPerf_savePerf_map (r : PerfRecord) :
    ∀ db : List PerfRecord, (findPerf db r.proxyId r.userISP).isSome →
    findPerf (db.map (fun x =>
        if x.proxyId == r.proxyId && x.userISP == r.userISP then r else x))
      r.proxyId r.userISP = some r := by
  intro db
  induction db with
  | nil => intro h; simp [findPerf] at h
  | cons y t ih =>
    intro h
    cases hy : (y.proxyId == r.proxyId && y.userISP == r.userISP) with
    | true =>
      have hif : (if (y.proxyId == r.proxyId && y.userISP == r.userISP) = true
          then r else y) = r := if_pos hy
      rw [List.map_cons, hif]
      show findPerf (r :: _) r.proxyId r.userISP = some r
      unfold findPerf
      rw [List.find?_cons_of_pos _ (by simp)]
    | false =>
      have hif : (if (y.proxyId == r.proxyId && y.userISP == r.userISP) = true
          then r else y) = y := if_neg (by simp [hy])
      rw [List.map_cons, hif]
      show findPerf (y :: _) r.proxyId r.userISP = some r
      unfold findPerf at h ⊢
      rw [List.find?_cons_of_neg _ (by simp [hy])] at h ⊢
      exact ih h

theorem findPerf_savePerf_self (db : List PerfRecord) (r : PerfRecord)
    (h : (findPerf db r.proxyId r.userISP).isSome) :
    findPerf (savePerf db r) r.proxyId r.userISP = some r := by
  unfold savePerf
  rw [if_pos h]
  exact findPerf_savePerf_map r db h

theorem findPerf_savePerf_eq (db : List PerfRecord) (x : PerfRecord)
    (id : ℕ) (isp : String) (hx1 : x.proxyId = id) (hx2 : x.userISP = isp)
    (h : (findPerf db id isp).isSome) :
    findPerf (savePerf db x) id isp = some x := by
  subst hx1
  subst hx2
  exact findPerf_savePerf_self db x h

theorem updateHistory_fail_step (db : List PerfRecord) (id : ℕ) (isp : String)
    (b : ℚ) (r : PerfRecord) (hid : id ≠ 0)
    (h : findPerf db id isp = some r) :
    findPerf (updateHistory db id isp 0 b).1 id isp =
      some { r with score := r.score * failurePenalty,
                    sampleCount := r.sampleCount + 1 } := by
  obtain ⟨hkid, hkisp⟩ := findPerf_key db id isp r h
  have hcn : ¬ (0 < b ∧ 0 < (0 : ℚ)) := fun hc => lt_irrefl 0 hc.2
  have hrid : ¬ r.proxyId = 0 := hkid ▸ hid
  unfold updateHistory
  simp only [h, if_neg hcn, if_neg hrid, if_neg (lt_irrefl (0 : ℚ))]
  exact findPerf_savePerf_eq db
    { r with score := r.score * failurePenalty, sampleCount := r.sampleCount + 1 }
    id isp hkid hkisp (by rw [h]; rfl)

/-- C4: for an existing performance record with score `s`, `N`
consecutive `UpdateHistory` calls with a failed measurement (raw speed 0)
leave the stored score at exactly `s * 0.6 ^ N` and add `N` to the
sample count. -/
theorem failure_decay (db : List PerfRecord) (id : ℕ) (isp : String)
    (hid : id ≠ 0) (r : PerfRecord) (h : findPerf db id isp = some r) (N : ℕ) :
    findPerf (updateHistoryRuns db id isp (List.replicate N (0, 1))) id isp =
      some { r with score := r.score * failurePenalty ^ N,
                    sampleCount := r.sampleCount + N } := by
  induction N generalizing db r with
  | zero =>
    rw [pow_zero, mul_one, Nat.add_zero]
    exact h
  | succ n ih =>
    rw [List.replicate_succ]
    show findPerf (updateHistoryRuns (updateHistory db id isp 0 1).1 id isp
      (List.replicate n (0, 1))) id isp = _
    have hstep := updateHistory_fail_step db id isp 1 r hid h
    rw [ih _ _ hstep]
    have h1 : r.score * failurePenalty * failurePenalty ^ n =
        r.score * failurePenalty ^ (n + 1) := by ring
    have h2 : r.sampleCount + 1 + n = r.sampleCount + (n + 1) := by omega
    simp only [Option.some.injEq]
    rw [h1, h2]

theorem failure_decay_witness :
    findPerf (updateHistoryRuns [⟨1, "a", 1 / 2, 3⟩] 1 "a"
        (List.replicate 2 (0, 1))) 1 "a" =
      some { proxyId := 1, userISP := "a",
             score := (1 / 2 : ℚ) * failurePenalty ^ 2, sampleCount := 3 + 2 } :=
  failure_decay [⟨1, "a", 1 / 2, 3⟩] 1 "a" (by decide) ⟨1, "a", 1 / 2, 3⟩ rfl 2

/-! ## C10: annealer loop termination -/

theorem pickCandidate_not_mem (cands : List ℕ) (tested : Finset ℕ) (rs : ℕ)
    (draws : List ℕ) (c : ℕ)
    (h : pickCandidate cands tested rs draws = some c) : c ∉ tested := by
  unfold pickCandidate at h
  split at h
  case h_1 c0 heq =>
    rw [Option.some.injEq] at h
    subst h
    obtain ⟨d, hd, hfd⟩ := List.exists_of_findSome?_eq_some heq
    split at hfd
    case h_1 c1 hget =>
      by_cases hmem : c1 ∉ tested
      · rw [if_pos hmem, Option.some.injEq] at hfd
        subst hfd
        exact hmem
      · rw [if_neg hmem] at hfd
        exact absurd hfd (by simp)
    case h_2 => exact absurd hfd (by simp)
  case h_2 heq =>
    have := List.find?_some h
    exact of_decide_eq_true this

theorem annealStep_card (cands : List ℕ) (strict : Bool) (limit : ℚ)
    (st : AnnealState) (o : IterOracle) (st' : AnnealState)
    (h : annealStep cands strict limit st o = some st') :
    st'.tested.card = st.tested.card + 1 ∧ st.tested.card < cands.length := by
  simp only [annealStep] at h
  by_cases h1 : ¬ st.dataUsed < limit
  · rw [if_pos h1] at h
    exact absurd h (by simp)
  rw [if_neg h1] at h
  by_cases h2 : cands.length ≤ st.tested.card
  · rw [if_pos h2] at h
    exact absurd h (by simp)
  rw [if_neg h2] at h
  have hlt : st.tested.card < cands.length := Nat.lt_of_not_le h2
  refine ⟨?_, hlt⟩
  cases heq : pickCandidate cands st.tested
      (rangeSizeGo cands.length st.dataUsed limit).toNat o.randDraws with
  | none =>
    rw [heq] at h
    exact absurd h (by simp)
  | some c =>
    rw [heq] at h
    have hc : c ∉ st.tested := pickCandidate_not_mem _ _ _ _ _ heq
    have hcard : (insert c st.tested).card = st.tested.card + 1 :=
      Finset.card_insert_of_not_mem hc
    replace h : (if o.startErr = true then
        some (⟨insert c st.tested, st.dataUsed⟩ : AnnealState)
      else if (strict && o.analyzeErr) = true then
        some ⟨insert c st.tested, st.dataUsed⟩
      else
        some ⟨insert c st.tested,
          if o.speedErr = true then
            st.dataUsed + (o.bytes : ℚ) / (1024 * 1024) + 2 / 10
          else st.dataUsed + (o.bytes : ℚ) / (1024 * 1024)⟩) = some st' := h
    have hst : st'.tested = insert c st.tested := by
      by_cases hs : o.startErr = true
      · rw [if_pos hs, Option.some.injEq] at h
        rw [← h]
      · rw [if_neg hs] at h
        by_cases ha : (strict && o.analyzeErr) = true
        · rw [if_pos ha, Option.some.injEq] at h
          rw [← h]
        · rw [if_neg ha, Option.some.injEq] at h
          rw [← h]
    rw [hst]
    exact hcard

theorem annealRun_count_le (cands : List ℕ) (strict : Bool) (limit : ℚ) :
    ∀ (os : List IterOracle) (st : AnnealState),
      (annealRun cands strict limit os st).2 ≤
        cands.length - st.tested.card := by
  intro os
  induction os with
  | nil => intro st; simp [annealRun]
  | cons o os ih =>
    intro st
    cases hstep : annealStep cands strict limit st o with
    | none => simp [annealRun, hstep]
    | some st1 =>
      obtain ⟨hc, hlt⟩ := annealStep_card _ _ _ _ _ _ hstep
      have h2 := ih st1
      simp only [annealRun, hstep]
      omega

/-- C10: the annealer loop terminates -- every executed iteration marks
one previously untested candidate as tested, so however long the oracle
stream and whatever the budget, the loop body runs at most
`len(candidates)` times. -/
theorem anneal_terminates (cands : List ℕ) (strict : Bool) (limit : ℚ)
    (os : List IterOracle) :
    (annealRun cands strict limit os ⟨∅, 0⟩).2 ≤ cands.length :=
  le_trans (annealRun_count_le cands strict limit os ⟨∅, 0⟩) (Nat.sub_le _ _)

/-- C2, counterexample: two Shadowsocks-obfs profiles that differ only in
`host` -- the field the claim says must change the fingerprint in this
dialect because it is the obfuscation destination -- serialize to
different URIs yet produce identical `CalculateHash` signatures: `host`
is unconditionally excluded from the hash. -/
theorem hash_cosmetic_counterexample :
    ssObfsHostA.headerType = "http" ∧
    { ssObfsHostA with host := ssObfsHostB.host } = ssObfsHostB ∧
    ssObfsHostA.host ≠ ssObfsHostB.host ∧
    toURIM ssObfsHostA ≠ toURIM ssObfsHostB ∧
    hashSig ssObfsHostA = hashSig ssObfsHostB := by decide

/-- C2, amended: the fingerprint ignores `sni`, `fingerprint`, `alpn`,
`insecure`, `remarks`, `reserved`, `mtu` -- and `host` unconditionally,
with no Shadowsocks-obfs exception: overwriting all of these fields with
arbitrary values never changes `hashSig`. -/
theorem hash_cosmetic_amended (p : Profile) (sni fp rem host : String)
    (alpn : List String) (ins : Bool) (res : List ℕ) (mtu : ℤ) :
    hashSig { p with sni := sni, fingerprint := fp, alpn := alpn,
                     insecure := ins, remarks := rem, host := host,
                     reserved := res, mtu := mtu } = hashSig p := rfl

theorem posM_append_pos (seen : List ℚ) (s : ℚ) (hs : 0 < s) :
    posM (seen ++ [s]) = posM seen + {s} := by
  unfold posM
  rw [List.filter_append, ← Multiset.coe_add]
  simp [hs]

theorem posM_append_nonpos (seen : List ℚ) (s : ℚ) (hs : s ≤ 0) :
    posM (seen ++ [s]) = posM seen := by
  unfold posM
  rw [List.filter_append]
  simp [not_lt.mpr hs]

theorem coe_orderedInsert (s : ℚ) (l : List ℚ) :
    ((List.orderedInsert (· ≤ ·) s l : List ℚ) : Multiset ℚ) = ↑l + {s} := by
  have hp := Multiset.coe_eq_coe.mpr (List.perm_orderedInsert (· ≤ ·) s l)
  rw [hp, ← Multiset.cons_coe, ← Multiset.singleton_add, add_comm]

theorem msub_add_singleton (A B : Multiset ℚ) (hBA : B ≤ A) (s : ℚ) :
    (A + {s}) - B = (A - B) + {s} := by
  ext a
  rw [Multiset.count_sub, Multiset.count_add, Multiset.count_add,
    Multiset.count_sub, Multiset.count_singleton]
  have := Multiset.le_iff_count.mp hBA a
  split_ifs <;> omega

theorem msub_cons_of_le (A : Multiset ℚ) (w : ℚ) (t : Multiset ℚ)
    (h : w ::ₘ t ≤ A) : A - t = (A - (w ::ₘ t)) + {w} := by
  ext a
  rw [Multiset.count_sub, Multiset.count_add, Multiset.count_sub,
    Multiset.count_cons, Multiset.count_singleton]
  have hc := Multiset.le_iff_count.mp h a
  rw [Multiset.count_cons] at hc
  split_ifs at hc ⊢ <;> omega

theorem bucketInv_reject_nonpos (k : ℕ) (seen : List ℚ) (b : BucketM) (s : ℚ)
    (hs : s ≤ 0) (hb : BucketInv k seen b) :
    bucketOffer b s = some (b, false) ∧ BucketInv k (seen ++ [s]) b := by
  refine ⟨by unfold bucketOffer; rw [if_pos hs], ?_⟩
  obtain ⟨hcap, hsort, hsub, hlen, hsep⟩ := hb
  rw [BucketInv, posM_append_nonpos seen s hs]
  exact ⟨hcap, hsort, hsub, hlen, hsep⟩

theorem bucketInv_insert (k : ℕ) (seen : List ℚ) (b : BucketM) (s : ℚ)
    (hs : 0 < s) (hroom : b.scores.length < b.capacity) (hb : BucketInv k seen b) :
    bucketOffer b s =
      some ({ b with scores := b.scores.orderedInsert (· ≤ ·) s }, true) ∧
    BucketInv k (seen ++ [s])
      { b with scores := b.scores.orderedInsert (· ≤ ·) s } := by
  obtain ⟨hcap, hsort, hsub, hlen, hsep⟩ := hb
  have hcards : Multiset.card (b.scores : Multiset ℚ) = b.scores.length :=
    Multiset.coe_card _
  have hposcard : Multiset.card (posM seen) = b.scores.length := by omega
  have heq : (b.scores : Multiset ℚ) = posM seen :=
    Multiset.eq_of_le_of_card_le hsub (by omega)
  refine ⟨by unfold bucketOffer; rw [if_neg (not_le.mpr hs), if_pos hroom], ?_⟩
  rw [BucketInv, posM_append_pos seen s hs]
  refine ⟨hcap, hsort.orderedInsert s _, ?_, ?_, ?_⟩
  · rw [coe_orderedInsert]
    exact add_le_add_right hsub _
  · rw [List.orderedInsert_length]
    rw [Multiset.card_add, Multiset.card_singleton]
    omega
  · rw [coe_orderedInsert, ← heq]
    intro x hx
    rw [tsub_self] at hx
    simp at hx

theorem bucketInv_full (k : ℕ) (seen : List ℚ) (b : BucketM) (s : ℚ)
    (hs : 0 < s) (hfull : ¬ b.scores.length < b.capacity)
    (hb : BucketInv k seen b) (hk : 0 < k) :
    ∃ b1 acc, bucketOffer b s = some (b1, acc) ∧
      BucketInv k (seen ++ [s]) b1 := by
  obtain ⟨hcap, hsort, hsub, hlen, hsep⟩ := hb
  have hlenk : b.scores.length = k := by omega
  have hcardk : k ≤ Multiset.card (posM seen) := by omega
  obtain ⟨w, t, hsc⟩ : ∃ w t, b.scores = w :: t := by
    cases hscores : b.scores with
    | nil => rw [hscores] at hlenk; simp at hlenk; omega
    | cons w t => exact ⟨w, t, rfl⟩
  have hsort2 : List.Sorted (· ≤ ·) (w :: t) := hsc ▸ hsort
  have hsubwt : (w ::ₘ (↑t : Multiset ℚ)) ≤ posM seen := by
    rw [Multiset.cons_coe, ← hsc]
    exact hsub
  have hstep0 : bucketOffer b s =
      (if w < s then
        some ({ b with scores := t.orderedInsert (· ≤ ·) s }, true)
      else some (b, false)) := by
    unfold bucketOffer
    rw [if_neg (not_le.mpr hs), if_neg hfull, hsc]
  have htlen : t.length + 1 = k := by
    rw [hsc] at hlenk
    simpa using hlenk
  by_cases hws : w < s
  · refine ⟨_, _, by rw [hstep0, if_pos hws], ?_⟩
    rw [BucketInv, posM_append_pos seen s hs]
    have htle : (↑t : Multiset ℚ) ≤ posM seen :=
      le_trans (Multiset.le_cons_self _ _) hsubwt
    refine ⟨hcap, (List.Sorted.of_cons hsort2).orderedInsert s t, ?_, ?_, ?_⟩
    · show ((List.orderedInsert (· ≤ ·) s t : List ℚ) : Multiset ℚ) ≤
        posM seen + {s}
      rw [coe_orderedInsert]
      exact add_le_add_right htle _
    · show (List.orderedInsert (· ≤ ·) s t).length =
        min k (Multiset.card (posM seen + {s}))
      rw [List.orderedInsert_length, Multiset.card_add, Multiset.card_singleton]
      omega
    · show ∀ x ∈ (posM seen + {s}) -
          ((List.orderedInsert (· ≤ ·) s t : List ℚ) : Multiset ℚ),
        ∀ y ∈ List.orderedInsert (· ≤ ·) s t, x ≤ y
      rw [coe_orderedInsert, add_tsub_add_eq_tsub_right,
        msub_cons_of_le (posM seen) w ↑t hsubwt]
      intro x hx y hy
      rw [Multiset.mem_add] at hx
      rw [List.mem_orderedInsert] at hy
      have hwmem : w ∈ b.scores := by
        rw [hsc]
        exact List.mem_cons_self w t
      have hxmem : ∀ z, z ∈ posM seen - (w ::ₘ (↑t : Multiset ℚ)) →
          z ∈ posM seen - (b.scores : Multiset ℚ) := by
        intro z hz
        rwa [hsc, ← Multiset.cons_coe]
      cases hx with
      | inl hxold =>
        have hxw : x ≤ w := hsep x (hxmem x hxold) w hwmem
        cases hy with
        | inl hys =>
          subst hys
          exact le_of_lt (lt_of_le_of_lt hxw hws)
        | inr hyt =>
          refine hsep x (hxmem x hxold) y ?_
          rw [hsc]
          exact List.mem_cons_of_mem w hyt
      | inr hxw =>
        rw [Multiset.mem_singleton] at hxw
        subst hxw
        cases hy with
        | inl hys =>
          subst hys
          exact le_of_lt hws
        | inr hyt => exact List.rel_of_sorted_cons hsort2 y hyt
  · refine ⟨_, _, by rw [hstep0, if_neg hws], ?_⟩
    rw [BucketInv, posM_append_pos seen s hs]
    have hsw : s ≤ w := not_lt.mp hws
    refine ⟨hcap, hsort, le_trans hsub (self_le_add_right _ _), ?_, ?_⟩
    · rw [Multiset.card_add, Multiset.card_singleton]
      omega
    · rw [msub_add_singleton _ _ hsub s]
      intro x hx y hy
      rw [Multiset.mem_add] at hx
      cases hx with
      | inl hxold => exact hsep x hxold y hy
      | inr hxs =>
        rw [Multiset.mem_singleton] at hxs
        subst hxs
        rw [hsc] at hy
        rw [List.mem_cons] at hy
        cases hy with
        | inl hyw =>
          subst hyw
          exact hsw
        | inr hyt => exact le_trans hsw (List.rel_of_sorted_cons hsort2 y hyt)

theorem runOffers_inv (k : ℕ) (hk : 0 < k) :
    ∀ (offers seen : List ℚ) (b : BucketM), BucketInv k seen b →
      ∃ b1, runOffers b offers = some b1 ∧ BucketInv k (seen ++ offers) b1 := by
  intro offers
  induction offers with
  | nil =>
    intro seen b hb
    exact ⟨b, rfl, by simpa using hb⟩
  | cons s rest ih =>
    intro seen b hb
    by_cases hs : s ≤ 0
    · obtain ⟨hstep, hinv⟩ := bucketInv_reject_nonpos k seen b s hs hb
      obtain ⟨b1, hrun, hinv1⟩ := ih (seen ++ [s]) b hinv
      refine ⟨b1, ?_, ?_⟩
      · simp only [runOffers, hstep]
        exact hrun
      · rwa [List.append_assoc, List.singleton_append] at hinv1
    · have hpos : 0 < s := not_le.mp hs
      by_cases hroom : b.scores.length < b.capacity
      · obtain ⟨hstep, hinv⟩ := bucketInv_insert k seen b s hpos hroom hb
        obtain ⟨b1, hrun, hinv1⟩ := ih (seen ++ [s]) _ hinv
        refine ⟨b1, ?_, ?_⟩
        · simp only [runOffers, hstep]
          exact hrun
        · rwa [List.append_assoc, List.singleton_append] at hinv1
      · obtain ⟨b0, acc, hstep, hinv⟩ := bucketInv_full k seen b s hpos hroom hb hk
        obtain ⟨b1, hrun, hinv1⟩ := ih (seen ++ [s]) b0 hinv
        refine ⟨b1, ?_, ?_⟩
        · simp only [runOffers, hstep]
          exact hrun
        · rwa [List.append_assoc, List.singleton_append] at hinv1

/-- C3: after any finite sequence of `Offer` calls on a bucket of
capacity `k > 0`, the bucket holds exactly the `k` highest-scoring
positive offers seen so far (all of them when fewer than `k` were made):
the held scores are a sub-multiset of the positive offers, their number
is `min k (number of positive offers)`, and every positive offer not
held is at most every held score. -/
theorem bucket_topK (k : ℕ) (hk : 0 < k) (offers : List ℚ) :
    ∃ b : BucketM, runOffers (newBucket k) offers = some b ∧
      b.capacity = k ∧
      (b.scores : Multiset ℚ) ≤ posM offers ∧
      b.scores.length = min k (Multiset.card (posM offers)) ∧
      ∀ x ∈ posM offers - (b.scores : Multiset ℚ), ∀ y ∈ b.scores, x ≤ y := by
  obtain ⟨b, hrun, hinv⟩ := runOffers_inv k hk offers [] (newBucket k)
    ⟨rfl, List.sorted_nil, by simp [posM, newBucket],
      by simp [posM, newBucket], by simp [posM, newBucket]⟩
  rw [List.nil_append] at hinv
  exact ⟨b, hrun, hinv.1, hinv.2.2.1, hinv.2.2.2.1, hinv.2.2.2.2⟩

theorem bucket_topK_witness :
    ∃ b : BucketM, runOffers (newBucket 2) [1, 3, 2, 4] = some b ∧
      b.capacity = 2 ∧
      (b.scores : Multiset ℚ) ≤ posM [1, 3, 2, 4] ∧
      b.scores.length = min 2 (Multiset.card (posM [1, 3, 2, 4])) ∧
      ∀ x ∈ posM [1, 3, 2, 4] - (b.scores : Multiset ℚ),
        ∀ y ∈ b.scores, x ≤ y :=
  bucket_topK 2 (by decide) [1, 3, 2, 4]
